import Mathlib

/-!
# The executor of the Azure Functions Go worker

A shallow embedding of `executor/executor.go`: `getValueFromBinding`,
`getFuncParams` and `ExecuteFunc`, followed by the properties of the
invocation engine that were checked against them.

Go constructs and how they are embedded:

* a call returning `(T, error)` is a `Res T`: a value, a returned error, or a
  run-time panic that unwinds the caller;
* a Go `map` that is only indexed is a lookup function; the one map that is
  ranged over (`f.NamedInArgs`) is a list of entries together with the order
  in which the `range` statement visits them, which Go leaves unspecified;
* `reflect.Value`, `reflect.Type` and the empty-interface values obtained
  with `Interface()` are small inductive types that keep exactly what the
  executor observes;
* the collaborators outside the file (`util` converters, `json.Marshal`, the
  loader registry) are fields of an environment `Env`.
-/

set_option autoImplicit false
set_option linter.dupNamespace false

namespace Executor

/-! ## Run-time outcomes -/

/-- Run-time panics the executor can raise. -/
inductive Panic where
  /-- Dereference of a nil pointer (`f.Bindings`, `f.NamedInArgs`, `f.Func` with `f == nil`,
  or `input.Data.Data` with `input.Data == nil`). -/
  | nilDereference
  /-- Raised by `reflect.New(nil)`: its message is "reflect: New(nil)". -/
  | reflectNewNil
  /-- Raised by `reflect.Value.Call` with too few or too many input arguments. -/
  | callArgumentCount
  /-- Raised by `reflect.Value.Call` using the zero Value as an argument. -/
  | callZeroValue
  /-- Raised by `reflect.Value.Call` using an argument of a type not assignable to the parameter. -/
  | callArgumentType
  /-- Slice index out of range. -/
  | indexOutOfRange
  deriving DecidableEq, Repr

/-- Modelled from the spec: the declared binding kind carried by `rpc.BindingInfo.Type`
(enumerated: HTTPTrigger, Blob, ..., extensible). The constants `azfunc.HTTPTriggerType` and
`azfunc.BlobBindingType` are the first two constructors; every other kind is `Other`. -/
inductive BindingType where
  | HTTPTriggerType
  | BlobBindingType
  | Other (name : String)
  deriving DecidableEq, Repr

/-- Errors returned (not panicked) inside the executor. -/
inductive GoError where
  /-- The error "cannot find input %v in function bindings". -/
  | cannotFindInput (name : String)
  /-- The error "named argument not found". -/
  | namedArgumentNotFound
  /-- The error "cannot handle binding %v". -/
  | cannotHandleBinding (t : BindingType)
  /-- An error returned by one of the `util` converters. -/
  | converter (msg : String)
  deriving DecidableEq, Repr

/-- Result of a Go call of type `(T, error)`. -/
inductive Res (α : Type) where
  /-- The call returned `(a, nil)`. -/
  | ok (a : α)
  /-- The call returned a non-nil error. -/
  | err (e : GoError)
  /-- The call panicked. -/
  | panic (p : Panic)
  deriving DecidableEq, Repr

/-- Sequencing of Go evaluation: the continuation runs only when the first call returned a
value. -/
def Res.bind {α β : Type} (r : Res α) (k : α → Res β) : Res β :=
  match r with
  | Res.ok a => k a
  | Res.err e => Res.err e
  | Res.panic p => Res.panic p

/-- Result of a Go call without error result: it returns or it panics. -/
inductive Exec (α : Type) where
  | done (a : α)
  | panic (p : Panic)
  deriving DecidableEq, Repr

/-! ## Types and values seen through `reflect` -/

/-- A `reflect.Type`, compared with `==` by identity of the type it stands for. -/
inductive GoType where
  | Named (name : String)
  | Ptr (elem : GoType)
  deriving DecidableEq, Repr

/-- The type `reflect.TypeOf((*azfunc.Context)(nil))`. -/
def ContextType : GoType := GoType.Ptr (GoType.Named "azfunc.Context")

/-- The struct `azfunc.Context` as the executor builds it. -/
structure Context where
  FunctionID : String
  InvocationID : String
  deriving DecidableEq, Repr

/-- A native value handed over by a collaborator (`*http.Request`, the blob input, a value
returned by a user function): its dynamic type and a rendering of its content, which the
executor never inspects. -/
structure Native where
  typ : GoType
  repr : String
  deriving DecidableEq, Repr

/-- A `reflect.Value` as the executor builds and passes it. -/
inductive Value where
  /-- The zero `reflect.Value`, with which `make([]reflect.Value, n)` fills a slice. -/
  | zero
  /-- The value `reflect.ValueOf(ctx)` for `ctx *azfunc.Context`. -/
  | ofContext (ctx : Context)
  /-- The value `reflect.ValueOf(x)` for a native value `x`. -/
  | ofNative (x : Native)
  deriving DecidableEq, Repr

/-- The method `Value.Type()`; the zero Value has none. -/
def Value.typ : Value → Option GoType
  | Value.zero => none
  | Value.ofContext _ => some ContextType
  | Value.ofNative x => some x.typ

/-- The empty-interface value that `Interface()` yields on an output of the called
function, as far as the type switches of `ExecuteFunc` tell values apart. -/
inductive Iface where
  /-- The nil interface value: a nil result of an interface type, for instance of the declared
  type `error`. -/
  | nil
  /-- A non-null value whose dynamic type implements `error`; the interface holding it is
  non-nil. -/
  | error (msg : String)
  /-- A non-null value whose dynamic type does not implement `error`. -/
  | value (x : Native)
  /-- A nil pointer of the concrete type `typ`, which implements `error` (the result `nil` of a
  function declared to return `typ`): the value is null, the interface holding it is non-nil. -/
  | nilError (typ : GoType)
  /-- A nil pointer, map, slice, channel or function of the concrete type `typ`, which does not
  implement `error`: the value is null, the interface holding it is non-nil. -/
  | nilValue (typ : GoType)
  deriving DecidableEq, Repr

/-- Whether the clause `case error:` of a type switch matches: the dynamic type implements
`error`. The nil interface has no dynamic type and matches no such clause. -/
def Iface.implementsError : Iface → Bool
  | Iface.error _ => true
  | Iface.nilError _ => true
  | _ => false

/-- Whether the returned value is null: the nil interface or a nil value of a concrete
type. -/
def Iface.isNull : Iface → Bool
  | Iface.nil => true
  | Iface.nilError _ => true
  | Iface.nilValue _ => true
  | _ => false

/-- The function held in `f.Func`: its parameter types in declared order and what it returns
on given arguments. -/
structure GoFunc where
  In : List GoType
  run : List Value → List Iface

/-- The method `reflect.Value.Call` for a function that is not variadic and whose parameters
have concrete types: it panics unless the number of arguments is the number of parameters, no
argument is the zero Value and every argument has the type of its parameter (assignability is
modelled for identical types, not for interface parameters); otherwise the function runs. -/
def Call (fn : GoFunc) (params : List Value) : Exec (List Iface) :=
  if params.length ≠ fn.In.length then Exec.panic Panic.callArgumentCount
  else if params.any (fun v => decide (v = Value.zero)) then Exec.panic Panic.callZeroValue
  else if params.map Value.typ ≠ fn.In.map some then Exec.panic Panic.callArgumentType
  else Exec.done (fn.run params)

/-! ## The rpc messages -/

/-- The message `rpc.RpcHttp`; the executor passes it to the converter unread. -/
structure RpcHttp where
  wire : String
  deriving DecidableEq, Repr

/-- The message `rpc.TypedData`, by the member of its `Data` oneof. -/
inductive TypedData where
  /-- The freshly allocated `rpc.TypedData` with no field set: no payload. -/
  | empty
  /-- The member `rpc.TypedData_Json`. -/
  | Json (s : String)
  /-- The member `rpc.TypedData_String_`. -/
  | String_ (s : String)
  /-- The member `rpc.TypedData_Http`. -/
  | Http (h : RpcHttp)
  /-- Any other member of the oneof (bytes, stream, int, double). -/
  | Other (tag : String)
  deriving DecidableEq, Repr

/-- The message `rpc.ParameterBinding`; `Data` is a pointer and may be nil. -/
structure ParameterBinding where
  Name : String
  Data : Option TypedData
  deriving DecidableEq, Repr

/-- The message `rpc.BindingInfo`; `Type_` is its field `Type`. -/
structure BindingInfo where
  Type_ : BindingType
  deriving DecidableEq, Repr

/-- The message `rpc.InvocationRequest`. -/
structure InvocationRequest where
  InvocationId : String
  FunctionId : String
  InputData : List ParameterBinding
  deriving DecidableEq, Repr

/-- The enumeration `rpc.StatusResult_Status`, restricted to the two values used. -/
inductive Status where
  | StatusResult_Success
  | StatusResult_Failure
  deriving DecidableEq, Repr

/-- The message `rpc.StatusResult`. -/
structure StatusResult where
  Status : Status
  deriving DecidableEq, Repr

/-- The message `rpc.InvocationResponse`. -/
structure InvocationResponse where
  InvocationId : String
  Result : StatusResult
  ReturnValue : TypedData
  deriving DecidableEq, Repr

/-! ## Registrations and the environment -/

/-- The struct `azfunc.Func`. `Bindings` is a map that is only indexed. `NamedInArgs` is ranged
over with a string key and measured with `len`, so it is a Go map from parameter name to
parameter type; its entries are listed here in the declared parameter order of the function
(names are pairwise distinct, being map keys). -/
structure Func where
  Func : GoFunc
  Bindings : String → Option BindingInfo
  NamedInArgs : List (String × GoType)

/-- The collaborators of the executor.

* `LoadedFuncs`: the registry `loader.LoadedFuncs`, a map to `*azfunc.Func` (`none`: no entry,
  the lookup yields a nil pointer);
* `ConvertToHTTPRequest`, `ConvertToBlobInput`: the `util` converters;
* `Marshal`: `json.Marshal`, `none` when it returns an error (its bytes are then nil);
* `rangeOrder`: the order in which the statement `for k, v := range f.NamedInArgs` of this
  run visits the entries of the map. Go does not specify it; it is a rearrangement of the
  entries. -/
structure Env where
  LoadedFuncs : String → Option Func
  ConvertToHTTPRequest : RpcHttp → Except String Native
  ConvertToBlobInput : String → Except String Native
  Marshal : Iface → Option String
  rangeOrder : List (String × GoType) → List (String × GoType)

/-! ## `getValueFromBinding` -/

/-- The call `reflect.New(nil)`, which every error return of `getValueFromBinding` evaluates
first: `reflect.New` panics on a nil type. -/
def reflect_New_nil : Res Value := Res.panic Panic.reflectNewNil

/-- The statement `return reflect.New(nil), e`: the operands are evaluated left to right. -/
def returnNewNil (e : GoError) : Res Value :=
  Res.bind reflect_New_nil (fun _ => Res.err e)

/-- The function `getValueFromBinding` (executor.go, lines 139-164). -/
def getValueFromBinding (env : Env) (input : ParameterBinding) (binding : BindingInfo) :
    Res Value :=
  match binding.Type_ with
  | BindingType.HTTPTriggerType =>
    match input.Data with
    | none => Res.panic Panic.nilDereference
    | some (TypedData.Http r) =>
      match env.ConvertToHTTPRequest r with
      | Except.error msg => returnNewNil (GoError.converter msg)
      | Except.ok h => Res.ok (Value.ofNative h)
    | some _ => returnNewNil (GoError.cannotHandleBinding binding.Type_)
  | BindingType.BlobBindingType =>
    match input.Data with
    | none => Res.panic Panic.nilDereference
    | some (TypedData.String_ d) =>
      match env.ConvertToBlobInput d with
      | Except.error msg => returnNewNil (GoError.converter msg)
      | Except.ok b => Res.ok (Value.ofNative b)
    | some _ => returnNewNil (GoError.cannotHandleBinding binding.Type_)
  | BindingType.Other _ => returnNewNil (GoError.cannotHandleBinding binding.Type_)

/-! ## `getFuncParams` -/

/-- The local map `args` of `getFuncParams`: the latest entry for a name is found first. -/
abbrev Args := List (String × Value)

/-- The first loop of `getFuncParams` (lines 96-110), from the inputs still to visit and the
map built so far. -/
def collectArgs (env : Env) (f : Func) : List ParameterBinding → Args → Res Args
  | [], args => Res.ok args
  | input :: rest, args =>
    match f.Bindings input.Name with
    | some binding =>
      match getValueFromBinding env input binding with
      | Res.ok v => collectArgs env f rest ((input.Name, v) :: args)
      | Res.err e => Res.err e
      | Res.panic p => Res.panic p
    | none => Res.err (GoError.cannotFindInput input.Name)

/-- The assignment `params[i] = p`. -/
def setParam (params : List Value) (i : Nat) (p : Value) : Res (List Value) :=
  if i < params.length then Res.ok (params.set i p) else Res.panic Panic.indexOutOfRange

/-- The second loop of `getFuncParams` (lines 121-132), from the entries still to visit, the
slice `params` and the counter `i`. -/
def fillParams (args : Args) (ctx : Context) :
    List (String × GoType) → List Value → Nat → Res (List Value)
  | [], params, _ => Res.ok params
  | (k, v) :: rest, params, i =>
    match args.lookup k with
    | some p => Res.bind (setParam params i p) (fun ps => fillParams args ctx rest ps (i + 1))
    | none =>
      if v = ContextType then
        Res.bind (setParam params i (Value.ofContext ctx))
          (fun ps => fillParams args ctx rest ps (i + 1))
      else Res.err GoError.namedArgumentNotFound

/-- The function `getFuncParams` (lines 90-136). With `f == nil` the first use of `f`, either
`f.Bindings` in the first loop or `f.NamedInArgs` after it, dereferences a nil pointer. -/
def getFuncParams (env : Env) (req : InvocationRequest) (f : Option Func) : Res (List Value) :=
  match f with
  | none => Res.panic Panic.nilDereference
  | some f =>
    match collectArgs env f req.InputData [] with
    | Res.ok args =>
      fillParams args (Context.mk req.FunctionId req.InvocationId)
        (env.rangeOrder f.NamedInArgs) (List.replicate f.NamedInArgs.length Value.zero) 0
    | Res.err e => Res.err e
    | Res.panic p => Res.panic p

/-! ## `ExecuteFunc` -/

/-- The conversion `string(b)` of the bytes returned by `json.Marshal`. -/
def bytesToString : Option String → String
  | some s => s
  | none => ""

/-- What the switch on `len(output)` (lines 37-78) leaves behind. -/
structure Reduced where
  status : Status
  returnValue : TypedData
  marshalled : List Iface
  deriving DecidableEq, Repr

/-- The switch on `len(output)` of `ExecuteFunc` (lines 37-78), from the status computed so
far. `marshalled` lists the values handed to `json.Marshal`. In the clause `case error:` the
test `o != nil` compares the interface, which is non-nil whenever the clause matched. -/
def reduceOutput (env : Env) (status : Status) (output : List Iface) : Reduced :=
  match output with
  | [o] =>
    if o.implementsError then
      if o ≠ Iface.nil then Reduced.mk Status.StatusResult_Failure TypedData.empty []
      else Reduced.mk status TypedData.empty []
    else Reduced.mk status (TypedData.Json (bytesToString (env.Marshal o))) [o]
  | [o0, o1] =>
    if o1.implementsError then
      if o1 ≠ Iface.nil then
        Reduced.mk Status.StatusResult_Failure (TypedData.Json (bytesToString (env.Marshal o0))) [o0]
      else Reduced.mk status (TypedData.Json (bytesToString (env.Marshal o0))) [o0]
    else Reduced.mk status (TypedData.Json (bytesToString (env.Marshal o0))) [o0]
  | _ => Reduced.mk status TypedData.empty []

/-- One run of `ExecuteFunc`: what it returns, the argument lists with which the registered
function was run, and the values handed to `json.Marshal`. -/
structure Run where
  result : Exec InvocationResponse
  calls : List (List Value)
  marshalled : List Iface
  deriving DecidableEq, Repr

/-- Lines 33-86 of `ExecuteFunc`: the call `f.Func.Call(params)` and the reduction of its
output, from the status computed by lines 18-29. -/
def invoke (env : Env) (req : InvocationRequest) (f : Option Func) (status : Status)
    (params : List Value) : Run :=
  match f with
  | none => Run.mk (Exec.panic Panic.nilDereference) [] []
  | some fn =>
    match Call fn.Func params with
    | Exec.panic p => Run.mk (Exec.panic p) [] []
    | Exec.done output =>
      let r := reduceOutput env status output
      Run.mk (Exec.done (InvocationResponse.mk req.InvocationId (StatusResult.mk r.status)
        r.returnValue)) [params] r.marshalled

/-- The status after the registry lookup (lines 18-24). -/
def lookupStatus (f : Option Func) : Status :=
  match f with
  | some _ => Status.StatusResult_Success
  | none => Status.StatusResult_Failure

/-- The function `ExecuteFunc` (lines 16-87). Neither a failed lookup nor a failed
`getFuncParams` returns: both set the status and fall through to the call, with the nil
`params` of the error return. -/
def ExecuteFunc (env : Env) (req : InvocationRequest) : Run :=
  let f := env.LoadedFuncs req.FunctionId
  match getFuncParams env req f with
  | Res.ok params => invoke env req f (lookupStatus f) params
  | Res.err _ => invoke env req f Status.StatusResult_Failure []
  | Res.panic p => Run.mk (Exec.panic p) [] []

/-! ## Sample collaborators and registrations -/

/-- A sample `json.Marshal`: nil encodes as `null`, a native value as its rendering, and
channels have no encoding. -/
def sampleMarshal : Iface → Option String
  | Iface.nil => some "null"
  | Iface.error _ => some "\x7b\x7d"
  | Iface.value x => if x.typ = GoType.Named "chan int" then none else some x.repr
  | Iface.nilError _ => some "null"
  | Iface.nilValue _ => some "null"

/-- The type `*http.Request`. -/
def HTTPRequestType : GoType := GoType.Ptr (GoType.Named "http.Request")

/-- The type `*azfunc.Blob`. -/
def BlobType : GoType := GoType.Ptr (GoType.Named "azfunc.Blob")

/-- A sample `util.ConvertToHTTPRequest`: it rejects the empty message. -/
def sampleConvertToHTTPRequest (r : RpcHttp) : Except String Native :=
  if r.wire = "" then Except.error "empty http message"
  else Except.ok (Native.mk HTTPRequestType r.wire)

/-- A sample `util.ConvertToBlobInput`. -/
def sampleConvertToBlobInput (d : String) : Except String Native :=
  Except.ok (Native.mk BlobType d)

/-- An environment over the sample collaborators, for a registry and a visiting order. -/
def sampleEnv (registry : String → Option Func)
    (order : List (String × GoType) → List (String × GoType)) : Env :=
  Env.mk registry sampleConvertToHTTPRequest sampleConvertToBlobInput sampleMarshal order

/-- A registry with the single registration `f` under the identifier `id`. -/
def singleton (id : String) (f : Func) : String → Option Func :=
  fun k => if k = id then some f else none

/-- The registration of `func Run() int`, which returns 42; it has no bindings. -/
def answerFunc : Func :=
  Func.mk (GoFunc.mk [] (fun _ => [Iface.value (Native.mk (GoType.Named "int") "42")]))
    (fun _ => none) []

/-- The registration of `func Run(req *http.Request) int` with the binding `req`. -/
def httpFunc : Func :=
  Func.mk (GoFunc.mk [HTTPRequestType]
      (fun _ => [Iface.value (Native.mk (GoType.Named "int") "42")]))
    (fun k => if k = "req" then some (BindingInfo.mk BindingType.HTTPTriggerType) else none)
    [("req", HTTPRequestType)]

/-- A request for `f0` whose only input, `x`, is unknown to every sample registration. -/
def unknownInputRequest : InvocationRequest :=
  InvocationRequest.mk "inv-1" "f0" [ParameterBinding.mk "x" (some (TypedData.String_ "a"))]

/-- The integer 42 as a returned value. -/
def answer : Iface := Iface.value (Native.mk (GoType.Named "int") "42")

/-- A registration of `func Run(q string) int` whose binding `q` has a kind that is not wired
into `getValueFromBinding`. -/
def queueFunc : Func :=
  Func.mk (GoFunc.mk [GoType.Named "string"] (fun _ => [answer]))
    (fun k => if k = "q" then some (BindingInfo.mk (BindingType.Other "queue")) else none)
    [("q", GoType.Named "string")]

/-- A request for `f0` with the input `q` followed by the unknown input `x`. -/
def queueThenUnknownRequest : InvocationRequest :=
  InvocationRequest.mk "inv-2" "f0"
    [ParameterBinding.mk "q" (some (TypedData.String_ "m")),
     ParameterBinding.mk "x" (some (TypedData.String_ "a"))]

/-- A request for `f0` with the HTTP input `req` followed by the unknown input `x`. -/
def httpThenUnknownRequest : InvocationRequest :=
  InvocationRequest.mk "inv-3" "f0"
    [ParameterBinding.mk "req" (some (TypedData.Http (RpcHttp.mk "GET /"))),
     ParameterBinding.mk "x" (some (TypedData.String_ "a"))]

/-- A request for `f0` with the single input `q`. -/
def queueRequest : InvocationRequest :=
  InvocationRequest.mk "inv-4" "f0" [ParameterBinding.mk "q" (some (TypedData.String_ "m"))]

/-- The registration of `func Run(req *http.Request, inBlob *azfunc.Blob) int` with the
bindings `req` and `inBlob`. -/
def httpBlobFunc : Func :=
  Func.mk (GoFunc.mk [HTTPRequestType, BlobType] (fun _ => [answer]))
    (fun k =>
      if k = "req" then some (BindingInfo.mk BindingType.HTTPTriggerType)
      else if k = "inBlob" then some (BindingInfo.mk BindingType.BlobBindingType)
      else none)
    [("req", HTTPRequestType), ("inBlob", BlobType)]

/-- A request for `f0` with the HTTP input `req` and the string input `inBlob`. -/
def httpBlobRequest : InvocationRequest :=
  InvocationRequest.mk "inv-5" "f0"
    [ParameterBinding.mk "req" (some (TypedData.Http (RpcHttp.mk "GET /"))),
     ParameterBinding.mk "inBlob" (some (TypedData.String_ "data"))]

/-- The registration of `func Run(ctx *azfunc.Context, req *http.Request) int` with the
binding `req`. -/
def contextHttpFunc : Func :=
  Func.mk (GoFunc.mk [ContextType, HTTPRequestType] (fun _ => [answer]))
    (fun k => if k = "req" then some (BindingInfo.mk BindingType.HTTPTriggerType) else none)
    [("ctx", ContextType), ("req", HTTPRequestType)]

/-- A request for `f0` with the single HTTP input `req`. -/
def httpRequest : InvocationRequest :=
  InvocationRequest.mk "inv-6" "f0"
    [ParameterBinding.mk "req" (some (TypedData.Http (RpcHttp.mk "GET /")))]

/-- The positional alignment of a resolved argument list with the declared parameter list, in
the words of the specification: at every index, the argument is the converted value of an
input named like the declared parameter at that index when there is such an input, and
otherwise the parameter has the context type and the argument is the context of the request. -/
def PositionallyAligned (env : Env) (req : InvocationRequest) (f : Func)
    (params : List Value) : Prop :=
  ∀ (i : Nat) (k : String) (t : GoType), f.NamedInArgs[i]? = some (k, t) →
    (∃ input ∈ req.InputData, ∃ b v, input.Name = k ∧ f.Bindings input.Name = some b ∧
        getValueFromBinding env input b = Res.ok v ∧ params[i]? = some v) ∨
      ((∀ input ∈ req.InputData, input.Name ≠ k) ∧ t = ContextType ∧
        params[i]? = some (Value.ofContext (Context.mk req.FunctionId req.InvocationId)))

/-- The slice `params` that `ExecuteFunc` holds after line 25: the resolved arguments, and nil
when `getFuncParams` returned an error. -/
def paramsOf : Res (List Value) → List Value
  | Res.ok ps => ps
  | _ => []

/-- Whether a call panicked. -/
def Res.panicked {α : Type} : Res α → Bool
  | Res.panic _ => true
  | _ => false

/-- The registration of a function `Run(ctx *azfunc.Context)` that returns the values `outs`;
it has no bindings. -/
def contextFunc (outs : List Iface) : Func :=
  Func.mk (GoFunc.mk [ContextType] (fun _ => outs)) (fun _ => none) [("ctx", ContextType)]

/-- A request for `f0` without inputs. -/
def contextRequest : InvocationRequest := InvocationRequest.mk "inv-7" "f0" []

/-- The type `*myErr`, a pointer type with an `Error() string` method. -/
def myErrType : GoType := GoType.Ptr (GoType.Named "myErr")

/-- The string `oops` as a returned value that is not an error. -/
def oops : Iface := Iface.value (Native.mk (GoType.Named "string") "oops")

/-- The status that `ExecuteFunc` holds at line 33, before the call, for a found registration:
Success when `getFuncParams` returned the arguments, Failure otherwise. -/
def statusBeforeCall : Res (List Value) → Status
  | Res.ok _ => Status.StatusResult_Success
  | _ => Status.StatusResult_Failure

/-- The environment `env` with `json.Marshal` replaced by `m`. -/
def Env.withMarshal (env : Env) (m : Iface → Option String) : Env :=
  Env.mk env.LoadedFuncs env.ConvertToHTTPRequest env.ConvertToBlobInput m env.rangeOrder

/-- A channel as a returned value; the sample `json.Marshal` cannot encode it. -/
def channel : Iface := Iface.value (Native.mk (GoType.Named "chan int") "0xc000")

/-- The input `q` with a string payload; the sample registrations bind `q` to a kind that is
not wired. -/
def queueInput : ParameterBinding := ParameterBinding.mk "q" (some (TypedData.String_ "m"))

/-- An HTTP input whose message the sample converter rejects. -/
def emptyHttpInput : ParameterBinding :=
  ParameterBinding.mk "req" (some (TypedData.Http (RpcHttp.mk "")))

/-- The value that the second loop of `getFuncParams` stores for an entry of `NamedInArgs` that
it accepts: the entry of `args` under the name when there is one, the context otherwise. -/
def slotValue (args : Args) (ctx : Context) (e : String × GoType) : Value :=
  match args.lookup e.1 with
  | some p => p
  | none => Value.ofContext ctx

/-- The registration of `func Run(req *http.Request, name string) int` whose only binding is
`req`: nothing can fill the parameter `name`. -/
def unfillableFunc : Func :=
  Func.mk (GoFunc.mk [HTTPRequestType, GoType.Named "string"] (fun _ => [answer]))
    (fun k => if k = "req" then some (BindingInfo.mk BindingType.HTTPTriggerType) else none)
    [("req", HTTPRequestType), ("name", GoType.Named "string")]

/-- Three returned values. -/
def threeOutputs : List Iface := [answer, oops, Iface.error "boom"]

/-- The HTTP input `req` with the message `GET /old`. -/
def oldHttpInput : ParameterBinding :=
  ParameterBinding.mk "req" (some (TypedData.Http (RpcHttp.mk "GET /old")))

/-- The HTTP input `req` with the message `GET /new`. -/
def newHttpInput : ParameterBinding :=
  ParameterBinding.mk "req" (some (TypedData.Http (RpcHttp.mk "GET /new")))

/-- The registration of `func Run(req *http.Request) int` with the bindings `req` and `audit`;
`audit`, a blob binding, is not the name of a parameter. -/
def auditedFunc : Func :=
  Func.mk (GoFunc.mk [HTTPRequestType] (fun _ => [answer]))
    (fun k =>
      if k = "req" then some (BindingInfo.mk BindingType.HTTPTriggerType)
      else if k = "audit" then some (BindingInfo.mk BindingType.BlobBindingType)
      else none)
    [("req", HTTPRequestType)]

/-- The input `audit` with a string payload, which the blob binding converts. -/
def auditInput : ParameterBinding := ParameterBinding.mk "audit" (some (TypedData.String_ "log"))

/-- The input `audit` with a Json payload, which the blob binding does not handle. -/
def badAuditInput : ParameterBinding := ParameterBinding.mk "audit" (some (TypedData.Json "1"))

end Executor

namespace Executor

/-! ## Lemmas on the two loops of `getFuncParams` -/

/-- An input whose name is bound and whose payload converts. -/
def Converts (env : Env) (f : Func) (input : ParameterBinding) : Prop :=
  ∃ b v, f.Bindings input.Name = some b ∧ getValueFromBinding env input b = Res.ok v

theorem collectArgs_append (env : Env) (f : Func) (pre rest : List ParameterBinding) :
    ∀ args : Args, (∀ y ∈ pre, Converts env f y) →
      ∃ args2 : Args, collectArgs env f (pre ++ rest) args = collectArgs env f rest args2 := by
  induction pre with
  | nil => intro args _; exact ⟨args, rfl⟩
  | cons y ys ih =>
    intro args h
    obtain ⟨b, v, hb, hv⟩ := h y (List.mem_cons_self y ys)
    obtain ⟨args2, h2⟩ := ih ((y.Name, v) :: args)
      (fun z hz => h z (List.mem_cons_of_mem y hz))
    refine ⟨args2, ?_⟩
    simp only [List.cons_append, collectArgs, hb, hv]
    exact h2

theorem collectArgs_unknown (env : Env) (f : Func) (x : ParameterBinding)
    (post : List ParameterBinding) (args : Args) (hx : f.Bindings x.Name = none) :
    collectArgs env f (x :: post) args = Res.err (GoError.cannotFindInput x.Name) := by
  simp only [collectArgs, hx]

/-! ## Failed lookups and failed resolutions (C1, C2, C3) -/

/-- C1, evaluated on the code: the request names the input `x`, unknown to the registration of
`func Run() int`. Resolution fails with the unknown-input error, yet `ExecuteFunc` goes on to
`f.Func.Call(params)` with the nil `params`: the function runs once and the Failure response
carries the Json payload `42`, not an empty return value. With a registration that declares a
parameter the same call panics and no response is returned. -/
theorem C1_failed_resolution_reaches_the_call :
    getFuncParams (sampleEnv (singleton "f0" answerFunc) id) unknownInputRequest
        (some answerFunc) = Res.err (GoError.cannotFindInput "x") ∧
      ExecuteFunc (sampleEnv (singleton "f0" answerFunc) id) unknownInputRequest =
        Run.mk (Exec.done (InvocationResponse.mk "inv-1"
          (StatusResult.mk Status.StatusResult_Failure) (TypedData.Json "42"))) [[]] [answer] ∧
      getFuncParams (sampleEnv (singleton "f0" httpFunc) id) unknownInputRequest
        (some httpFunc) = Res.err (GoError.cannotFindInput "x") ∧
      ExecuteFunc (sampleEnv (singleton "f0" httpFunc) id) unknownInputRequest =
        Run.mk (Exec.panic Panic.callArgumentCount) [] [] := by
  decide

/-- C2 as stated fails on the code. First conjunct: the input `q` is bound to a kind that
`getValueFromBinding` does not handle and precedes the unknown input `x`, so resolution stops at
`q` and never reports the unknown name. Second and third conjunct: with the unknown input alone
resolution does fail with the unknown-input error, and `ExecuteFunc` still runs the registered
function once. -/
theorem C2_counterexample :
    getFuncParams (sampleEnv (singleton "f0" queueFunc) id) queueThenUnknownRequest
        (some queueFunc) = Res.panic Panic.reflectNewNil ∧
      getFuncParams (sampleEnv (singleton "f0" answerFunc) id) unknownInputRequest
        (some answerFunc) = Res.err (GoError.cannotFindInput "x") ∧
      (ExecuteFunc (sampleEnv (singleton "f0" answerFunc) id) unknownInputRequest).calls =
        [[]] := by
  decide

/-- C2, amended: when some input name is absent from `f.Bindings` and every input before the
first such input converts, `getFuncParams` returns the unknown-input-name error for that input
and no argument list. -/
theorem C2_unknown_input_name_fails (env : Env) (req : InvocationRequest) (f : Func)
    (pre post : List ParameterBinding) (x : ParameterBinding)
    (hsplit : req.InputData = pre ++ x :: post)
    (hx : f.Bindings x.Name = none)
    (hpre : ∀ y ∈ pre, Converts env f y) :
    getFuncParams env req (some f) = Res.err (GoError.cannotFindInput x.Name) := by
  obtain ⟨args2, h2⟩ := collectArgs_append env f pre (x :: post) [] hpre
  simp only [getFuncParams, hsplit, h2, collectArgs_unknown env f x post args2 hx]

/-- Witness of C2: the HTTP input `req` converts and the next input, `x`, is unknown. -/
theorem C2_unknown_input_name_fails_witness :
    getFuncParams (sampleEnv (singleton "f0" httpFunc) id) httpThenUnknownRequest
      (some httpFunc) = Res.err (GoError.cannotFindInput "x") :=
  C2_unknown_input_name_fails (sampleEnv (singleton "f0" httpFunc) id) httpThenUnknownRequest
    httpFunc [ParameterBinding.mk "req" (some (TypedData.Http (RpcHttp.mk "GET /")))]
    [] (ParameterBinding.mk "x" (some (TypedData.String_ "a"))) rfl (by decide)
    (by
      intro y hy
      rw [List.mem_singleton] at hy
      subst hy
      exact ⟨BindingInfo.mk BindingType.HTTPTriggerType,
        Value.ofNative (Native.mk HTTPRequestType "GET /"), by decide, by decide⟩)

/-- C3, evaluated on the code: when the function identifier of the request is not in
`loader.LoadedFuncs`, `ExecuteFunc` sets the Failure status but does not return; it runs
`getFuncParams` on the nil registration, which dereferences it and panics, so no response is
returned (and no function is called). -/
theorem C3_unregistered_function_panics (env : Env) (req : InvocationRequest)
    (h : env.LoadedFuncs req.FunctionId = none) :
    getFuncParams env req (env.LoadedFuncs req.FunctionId) = Res.panic Panic.nilDereference ∧
      ExecuteFunc env req = Run.mk (Exec.panic Panic.nilDereference) [] [] := by
  simp [ExecuteFunc, getFuncParams, h]

/-- Witness of C3: the request asks for `f0` and the registry only holds `f1`. -/
theorem C3_unregistered_function_panics_witness :
    (sampleEnv (singleton "f1" answerFunc) id).LoadedFuncs unknownInputRequest.FunctionId = none ∧
      ExecuteFunc (sampleEnv (singleton "f1" answerFunc) id) unknownInputRequest =
        Run.mk (Exec.panic Panic.nilDereference) [] [] :=
  ⟨rfl,
    (C3_unregistered_function_panics (sampleEnv (singleton "f1" answerFunc) id)
      unknownInputRequest rfl).2⟩

/-! ## Successful resolution (C4, C5) -/

theorem collectArgs_ok (env : Env) (f : Func) (inputs : List ParameterBinding) :
    ∀ args : Args, (∀ y ∈ inputs, Converts env f y) →
      ∃ args2 : Args, collectArgs env f inputs args = Res.ok args2 ∧
        ∀ k : String, ((∃ y ∈ inputs, y.Name = k) ∨ (args.lookup k).isSome = true) →
          (args2.lookup k).isSome = true := by
  induction inputs with
  | nil =>
    intro args _
    refine ⟨args, rfl, ?_⟩
    intro k hk
    rcases hk with ⟨y, hy, _⟩ | hk
    · simp at hy
    · exact hk
  | cons y ys ih =>
    intro args h
    obtain ⟨b, v, hb, hv⟩ := h y (List.mem_cons_self y ys)
    obtain ⟨args2, h2, hlook⟩ := ih ((y.Name, v) :: args)
      (fun z hz => h z (List.mem_cons_of_mem y hz))
    refine ⟨args2, ?_, ?_⟩
    · simp only [collectArgs, hb, hv]
      exact h2
    · intro k hk
      apply hlook
      by_cases hky : k = y.Name
      · right
        subst hky
        simp [List.lookup]
      · rcases hk with ⟨z, hz, hzk⟩ | hk
        · rcases List.mem_cons.mp hz with hzy | hzys
          · exact absurd (hzy ▸ hzk.symm) hky
          · exact Or.inl ⟨z, hzys, hzk⟩
        · right
          have hne : (k == y.Name) = false := by simpa using hky
          simpa [List.lookup, hne] using hk

theorem fillParams_ok (args : Args) (ctx : Context) (visit : List (String × GoType)) :
    ∀ (params : List Value) (i : Nat), i + visit.length ≤ params.length →
      (∀ e ∈ visit, (args.lookup e.1).isSome = true ∨ e.2 = ContextType) →
      ∃ ps : List Value, fillParams args ctx visit params i = Res.ok ps ∧
        ps.length = params.length := by
  induction visit with
  | nil => intro params i _ _; exact ⟨params, rfl, rfl⟩
  | cons e rest ih =>
    intro params i hlen hcov
    obtain ⟨k, v⟩ := e
    have hi : i < params.length := by
      simp only [List.length_cons] at hlen
      omega
    have hrest : ∀ p : Value, i + 1 + rest.length ≤ (params.set i p).length := by
      intro p
      simp only [List.length_cons] at hlen
      simp only [List.length_set]
      omega
    have hcovrest : ∀ e ∈ rest, (args.lookup e.1).isSome = true ∨ e.2 = ContextType :=
      fun e he => hcov e (List.mem_cons_of_mem _ he)
    cases hlk : args.lookup k with
    | some p =>
      obtain ⟨ps, hps, hl⟩ := ih (params.set i p) (i + 1) (hrest p) hcovrest
      refine ⟨ps, ?_, ?_⟩
      · simp only [fillParams, hlk, setParam, hi, if_true, Res.bind]
        exact hps
      · simpa using hl
    | none =>
      have hv : v = ContextType := by
        rcases hcov (k, v) (List.mem_cons_self _ _) with h | h
        · simp [hlk] at h
        · exact h
      obtain ⟨ps, hps, hl⟩ :=
        ih (params.set i (Value.ofContext ctx)) (i + 1) (hrest _) hcovrest
      refine ⟨ps, ?_, ?_⟩
      · simp only [fillParams, hlk, hv, setParam, hi, if_true, Res.bind]
        exact hps
      · simpa using hl

/-- C4 as stated fails on the code. First part: every input name of the request is in the
binding map and the declared parameter `q` is covered by an input, yet the binding kind of `q`
is not one `getValueFromBinding` handles and resolution does not succeed. Second part: resolution
succeeds with a list of the declared length, but the `range` over the map `NamedInArgs` visited
`inBlob` before `req`, and the list is not in declared parameter order. -/
theorem C4_counterexample :
    ((∀ input ∈ queueRequest.InputData, (queueFunc.Bindings input.Name).isSome = true) ∧
      (∀ p ∈ queueFunc.NamedInArgs,
        (∃ input ∈ queueRequest.InputData, input.Name = p.1) ∨ p.2 = ContextType) ∧
      getFuncParams (sampleEnv (singleton "f0" queueFunc) id) queueRequest (some queueFunc) =
        Res.panic Panic.reflectNewNil) ∧
    ((∀ input ∈ httpBlobRequest.InputData, (httpBlobFunc.Bindings input.Name).isSome = true) ∧
      (∀ p ∈ httpBlobFunc.NamedInArgs,
        (∃ input ∈ httpBlobRequest.InputData, input.Name = p.1) ∨ p.2 = ContextType) ∧
      getFuncParams (sampleEnv (singleton "f0" httpBlobFunc) List.reverse) httpBlobRequest
          (some httpBlobFunc) =
        Res.ok [Value.ofNative (Native.mk BlobType "data"),
          Value.ofNative (Native.mk HTTPRequestType "GET /")] ∧
      ¬ PositionallyAligned (sampleEnv (singleton "f0" httpBlobFunc) List.reverse)
          httpBlobRequest httpBlobFunc
          [Value.ofNative (Native.mk BlobType "data"),
            Value.ofNative (Native.mk HTTPRequestType "GET /")]) := by
  refine ⟨⟨by decide, by decide, by decide⟩, by decide, by decide, by decide, ?_⟩
  intro h
  rcases h 0 "req" HTTPRequestType rfl with ⟨input, hmem, b, v, hname, hb, hv, hp⟩ | ⟨hno, _, _⟩
  · simp only [List.getElem?_cons_zero, Option.some.injEq] at hp
    subst hp
    simp only [httpBlobRequest, List.mem_cons, List.mem_singleton, List.not_mem_nil,
      or_false] at hmem
    rcases hmem with rfl | rfl
    · simp only [httpBlobFunc] at hb
      have hb2 : b = BindingInfo.mk BindingType.HTTPTriggerType := by
        simpa using hb.symm
      subst hb2
      revert hv
      decide
    · revert hname
      decide
  · exact hno (ParameterBinding.mk "req" (some (TypedData.Http (RpcHttp.mk "GET /"))))
      (by decide) rfl

/-- C4, amended: when every input of the request has its name in the binding map and converts,
and every declared parameter is either covered by an input of that name or has the context
type, `getFuncParams` succeeds and returns an argument list whose length is the number of
declared parameters, in whatever order the `range` statement visits the entries of
`NamedInArgs`. -/
theorem C4_resolution_succeeds (env : Env) (req : InvocationRequest) (f : Func)
    (hconv : ∀ input ∈ req.InputData, Converts env f input)
    (hcov : ∀ p ∈ f.NamedInArgs,
      (∃ input ∈ req.InputData, input.Name = p.1) ∨ p.2 = ContextType)
    (hperm : (env.rangeOrder f.NamedInArgs).Perm f.NamedInArgs) :
    ∃ params : List Value, getFuncParams env req (some f) = Res.ok params ∧
      params.length = f.NamedInArgs.length := by
  obtain ⟨args, hargs, hlook⟩ := collectArgs_ok env f req.InputData [] hconv
  obtain ⟨ps, hps, hl⟩ := fillParams_ok args (Context.mk req.FunctionId req.InvocationId)
    (env.rangeOrder f.NamedInArgs) (List.replicate f.NamedInArgs.length Value.zero) 0
    (by simp [hperm.length_eq])
    (by
      intro e he
      rcases hcov e (hperm.subset he) with h | h
      · exact Or.inl (hlook e.1 (Or.inl h))
      · exact Or.inr h)
  refine ⟨ps, ?_, ?_⟩
  · simp only [getFuncParams, hargs]
    exact hps
  · simpa using hl

/-- Witness of C4: both inputs of the request convert and cover the two declared parameters;
the map is visited in reverse. -/
theorem C4_resolution_succeeds_witness :
    ∃ params : List Value,
      getFuncParams (sampleEnv (singleton "f0" httpBlobFunc) List.reverse) httpBlobRequest
        (some httpBlobFunc) = Res.ok params ∧
      params.length = httpBlobFunc.NamedInArgs.length :=
  C4_resolution_succeeds (sampleEnv (singleton "f0" httpBlobFunc) List.reverse) httpBlobRequest
    httpBlobFunc
    (by
      intro y hy
      simp only [httpBlobRequest, List.mem_cons, List.mem_singleton, List.not_mem_nil,
        or_false] at hy
      rcases hy with rfl | rfl
      · exact ⟨BindingInfo.mk BindingType.HTTPTriggerType,
          Value.ofNative (Native.mk HTTPRequestType "GET /"), by decide, by decide⟩
      · exact ⟨BindingInfo.mk BindingType.BlobBindingType,
          Value.ofNative (Native.mk BlobType "data"), by decide, by decide⟩)
    (by decide)
    (List.reverse_perm httpBlobFunc.NamedInArgs)

/-- C5, evaluated on the code: for `func Run(ctx *azfunc.Context, req *http.Request) int` and a
request with the input `req`, resolution succeeds; the `range` over the map `NamedInArgs`
visited `req` before `ctx`, so the converted request stands at index 0 and the context at
index 1, while the declared parameter at index 0 is `ctx`: the list is not aligned with the
declared parameter list, and the call of the function with it panics on the argument types. -/
theorem C5_arguments_follow_the_visiting_order :
    getFuncParams (sampleEnv (singleton "f0" contextHttpFunc) List.reverse) httpRequest
        (some contextHttpFunc) =
      Res.ok [Value.ofNative (Native.mk HTTPRequestType "GET /"),
        Value.ofContext (Context.mk "f0" "inv-6")] ∧
    ¬ PositionallyAligned (sampleEnv (singleton "f0" contextHttpFunc) List.reverse)
        httpRequest contextHttpFunc
        [Value.ofNative (Native.mk HTTPRequestType "GET /"),
          Value.ofContext (Context.mk "f0" "inv-6")] ∧
    ExecuteFunc (sampleEnv (singleton "f0" contextHttpFunc) List.reverse) httpRequest =
      Run.mk (Exec.panic Panic.callArgumentType) [] [] := by
  refine ⟨by decide, ?_, by decide⟩
  intro h
  rcases h 0 "ctx" ContextType rfl with ⟨input, hmem, b, v, hname, _, _, _⟩ | ⟨_, _, hp⟩
  · simp only [httpRequest, List.mem_singleton] at hmem
    subst hmem
    revert hname
    decide
  · revert hp
    decide

/-! ## Reduction of the output (C6 to C10) -/

theorem ExecuteFunc_resolved (env : Env) (req : InvocationRequest) (f : Func)
    (params : List Value) (output : List Iface)
    (hf : env.LoadedFuncs req.FunctionId = some f)
    (hp : getFuncParams env req (some f) = Res.ok params)
    (hc : Call f.Func params = Exec.done output) :
    ExecuteFunc env req =
      Run.mk (Exec.done (InvocationResponse.mk req.InvocationId
        (StatusResult.mk (reduceOutput env Status.StatusResult_Success output).status)
        (reduceOutput env Status.StatusResult_Success output).returnValue)) [params]
        (reduceOutput env Status.StatusResult_Success output).marshalled := by
  simp only [ExecuteFunc, hf, hp, invoke, hc, lookupStatus]

theorem ExecuteFunc_unresolved (env : Env) (req : InvocationRequest) (f : Func)
    (e : GoError) (output : List Iface)
    (hf : env.LoadedFuncs req.FunctionId = some f)
    (hp : getFuncParams env req (some f) = Res.err e)
    (hc : Call f.Func [] = Exec.done output) :
    ExecuteFunc env req =
      Run.mk (Exec.done (InvocationResponse.mk req.InvocationId
        (StatusResult.mk (reduceOutput env Status.StatusResult_Failure output).status)
        (reduceOutput env Status.StatusResult_Failure output).returnValue)) [[]]
        (reduceOutput env Status.StatusResult_Failure output).marshalled := by
  simp only [ExecuteFunc, hf, hp, invoke, hc]

/-- C6 as stated fails on the code: the registration is found, resolution succeeds and the
function returns `(42, "oops")`, whose second value is non-nil but not an error; the type
switch takes its default branch and the status stays Success. -/
theorem C6_counterexample :
    (sampleEnv (singleton "f0" (contextFunc [answer, oops])) id).LoadedFuncs
        contextRequest.FunctionId = some (contextFunc [answer, oops]) ∧
      getFuncParams (sampleEnv (singleton "f0" (contextFunc [answer, oops])) id) contextRequest
        (some (contextFunc [answer, oops])) = Res.ok [Value.ofContext (Context.mk "f0" "inv-7")] ∧
      Call (contextFunc [answer, oops]).Func [Value.ofContext (Context.mk "f0" "inv-7")] =
        Exec.done [answer, oops] ∧
      oops ≠ Iface.nil ∧
      (ExecuteFunc (sampleEnv (singleton "f0" (contextFunc [answer, oops])) id)
          contextRequest).result =
        Exec.done (InvocationResponse.mk "inv-7" (StatusResult.mk Status.StatusResult_Success)
          (TypedData.Json "42")) := by
  refine ⟨rfl, by decide, by decide, by decide, by decide⟩

/-- C6, amended: for a found registration and a successful resolution, when the function
returns two values and the second is a non-nil value of error kind, the status of the response
is Failure. -/
theorem C6_error_in_second_slot_is_failure (env : Env) (req : InvocationRequest) (f : Func)
    (params : List Value) (X : Iface) (msg : String)
    (hf : env.LoadedFuncs req.FunctionId = some f)
    (hp : getFuncParams env req (some f) = Res.ok params)
    (hc : Call f.Func params = Exec.done [X, Iface.error msg]) :
    ∃ rv : TypedData, (ExecuteFunc env req).result =
      Exec.done (InvocationResponse.mk req.InvocationId
        (StatusResult.mk Status.StatusResult_Failure) rv) := by
  rw [ExecuteFunc_resolved env req f params _ hf hp hc]
  exact ⟨TypedData.Json (bytesToString (env.Marshal X)), by simp [reduceOutput, Iface.implementsError]⟩

/-- Witness of C6: the function returns `(42, error "boom")`. -/
theorem C6_error_in_second_slot_is_failure_witness :
    ∃ rv : TypedData,
      (ExecuteFunc (sampleEnv (singleton "f0" (contextFunc [answer, Iface.error "boom"])) id)
          contextRequest).result =
        Exec.done (InvocationResponse.mk contextRequest.InvocationId
          (StatusResult.mk Status.StatusResult_Failure) rv) :=
  C6_error_in_second_slot_is_failure
    (sampleEnv (singleton "f0" (contextFunc [answer, Iface.error "boom"])) id) contextRequest
    (contextFunc [answer, Iface.error "boom"]) [Value.ofContext (Context.mk "f0" "inv-7")]
    answer "boom" rfl (by decide) (by decide)

/-- C7: when the registered function returns `(X, err)` with a non-nil error `err` and `X` has
the JSON encoding `s`, the response of `ExecuteFunc` has status Failure and its return value is
the Json payload `s`, whether resolution succeeded or returned an error. -/
theorem C7_result_kept_beside_error (env : Env) (req : InvocationRequest) (f : Func)
    (X : Iface) (msg s : String)
    (hf : env.LoadedFuncs req.FunctionId = some f)
    (hnp : (getFuncParams env req (some f)).panicked = false)
    (hc : Call f.Func (paramsOf (getFuncParams env req (some f))) =
      Exec.done [X, Iface.error msg])
    (hm : env.Marshal X = some s) :
    (ExecuteFunc env req).result =
      Exec.done (InvocationResponse.mk req.InvocationId
        (StatusResult.mk Status.StatusResult_Failure) (TypedData.Json s)) := by
  cases hp : getFuncParams env req (some f) with
  | ok params =>
    rw [hp] at hc
    rw [ExecuteFunc_resolved env req f params _ hf hp hc]
    simp [reduceOutput, Iface.implementsError, hm, bytesToString]
  | err e =>
    rw [hp] at hc
    rw [ExecuteFunc_unresolved env req f e _ hf hp hc]
    simp [reduceOutput, Iface.implementsError, hm, bytesToString]
  | panic p => simp [hp, Res.panicked] at hnp

/-- Witness of C7: the function returns `(42, error "boom")`. -/
theorem C7_result_kept_beside_error_witness :
    (ExecuteFunc (sampleEnv (singleton "f0" (contextFunc [answer, Iface.error "boom"])) id)
        contextRequest).result =
      Exec.done (InvocationResponse.mk contextRequest.InvocationId
        (StatusResult.mk Status.StatusResult_Failure) (TypedData.Json "42")) :=
  C7_result_kept_beside_error
    (sampleEnv (singleton "f0" (contextFunc [answer, Iface.error "boom"])) id) contextRequest
    (contextFunc [answer, Iface.error "boom"]) answer "boom" "42" rfl (by decide) (by decide)
    (by decide)

theorem implementsError_ne_nil (o : Iface) (h : o.implementsError = true) : o ≠ Iface.nil := by
  intro hnil
  rw [hnil] at h
  simp [Iface.implementsError] at h

/-- For a found registration and a successful resolution, when the function returns two values,
the second of a type that does not implement `error` or the nil interface, and the first has
the JSON encoding `s`, the response of `ExecuteFunc` has status Success and its return value is
the Json payload `s`. -/
theorem two_values_without_error_is_success (env : Env) (req : InvocationRequest) (f : Func)
    (params : List Value) (X o1 : Iface) (s : String)
    (hf : env.LoadedFuncs req.FunctionId = some f)
    (hp : getFuncParams env req (some f) = Res.ok params)
    (hc : Call f.Func params = Exec.done [X, o1])
    (ho : o1.implementsError = false)
    (hm : env.Marshal X = some s) :
    (ExecuteFunc env req).result =
      Exec.done (InvocationResponse.mk req.InvocationId
        (StatusResult.mk Status.StatusResult_Success) (TypedData.Json s)) := by
  rw [ExecuteFunc_resolved env req f params _ hf hp hc]
  simp [reduceOutput, ho, hm, bytesToString]

/-- C8, evaluated on the code: for a found registration and a successful resolution, when the
function returns `(X, nil)` where the `nil` is a nil pointer of a concrete type that implements
`error` (the second result is declared with that type), the clause `case error:` matches, the
test `o != nil` holds on the interface, and the response has status Failure, with the Json
payload of `X`. The claim holds when the `nil` is the nil interface or a nil value of a type
that does not implement `error`. -/
theorem C8_nil_error_pointer_is_failure (env : Env) (req : InvocationRequest) (f : Func)
    (params : List Value) (X : Iface) (t : GoType) (s : String)
    (hf : env.LoadedFuncs req.FunctionId = some f)
    (hp : getFuncParams env req (some f) = Res.ok params)
    (hc : Call f.Func params = Exec.done [X, Iface.nilError t])
    (hm : env.Marshal X = some s) :
    (Iface.nilError t).isNull = true ∧
      (ExecuteFunc env req).result =
        Exec.done (InvocationResponse.mk req.InvocationId
          (StatusResult.mk Status.StatusResult_Failure) (TypedData.Json s)) := by
  rw [ExecuteFunc_resolved env req f params _ hf hp hc]
  simp [reduceOutput, Iface.implementsError, Iface.isNull, hm, bytesToString]

/-- Witness of C8: the function is declared `func Run(ctx *azfunc.Context) (int, *myErr)` and
returns `42, nil`. -/
theorem C8_nil_error_pointer_is_failure_witness :
    (Iface.nilError myErrType).isNull = true ∧
      (ExecuteFunc (sampleEnv (singleton "f0" (contextFunc [answer, Iface.nilError myErrType]))
          id) contextRequest).result =
        Exec.done (InvocationResponse.mk contextRequest.InvocationId
          (StatusResult.mk Status.StatusResult_Failure) (TypedData.Json "42")) :=
  C8_nil_error_pointer_is_failure
    (sampleEnv (singleton "f0" (contextFunc [answer, Iface.nilError myErrType])) id)
    contextRequest (contextFunc [answer, Iface.nilError myErrType])
    [Value.ofContext (Context.mk "f0" "inv-7")] answer myErrType "42" rfl (by decide)
    (by decide) (by decide)

/-- C9: when the registered function returns a single value that is a non-nil value of error
kind, the response of `ExecuteFunc` has status Failure and the empty return value, and nothing
is handed to `json.Marshal`. -/
theorem C9_single_error_is_failure (env : Env) (req : InvocationRequest) (f : Func)
    (msg : String)
    (hf : env.LoadedFuncs req.FunctionId = some f)
    (hnp : (getFuncParams env req (some f)).panicked = false)
    (hc : Call f.Func (paramsOf (getFuncParams env req (some f))) =
      Exec.done [Iface.error msg]) :
    (ExecuteFunc env req).result =
        Exec.done (InvocationResponse.mk req.InvocationId
          (StatusResult.mk Status.StatusResult_Failure) TypedData.empty) ∧
      (ExecuteFunc env req).marshalled = [] := by
  cases hp : getFuncParams env req (some f) with
  | ok params =>
    rw [hp] at hc
    rw [ExecuteFunc_resolved env req f params _ hf hp hc]
    simp [reduceOutput, Iface.implementsError]
  | err e =>
    rw [hp] at hc
    rw [ExecuteFunc_unresolved env req f e _ hf hp hc]
    simp [reduceOutput, Iface.implementsError]
  | panic p => simp [hp, Res.panicked] at hnp

/-- Witness of C9: the function returns `error "boom"`. -/
theorem C9_single_error_is_failure_witness :
    (ExecuteFunc (sampleEnv (singleton "f0" (contextFunc [Iface.error "boom"])) id)
          contextRequest).result =
        Exec.done (InvocationResponse.mk contextRequest.InvocationId
          (StatusResult.mk Status.StatusResult_Failure) TypedData.empty) ∧
      (ExecuteFunc (sampleEnv (singleton "f0" (contextFunc [Iface.error "boom"])) id)
          contextRequest).marshalled = [] :=
  C9_single_error_is_failure (sampleEnv (singleton "f0" (contextFunc [Iface.error "boom"])) id)
    contextRequest (contextFunc [Iface.error "boom"]) "boom" rfl (by decide) (by decide)

/-- For a found registration and a successful resolution, when the function returns a single
value `v` that is the nil interface or of a type that does not implement `error`, and `v` has
the JSON encoding `s`, the response of `ExecuteFunc` has status Success and its return value is
the Json payload `s`. -/
theorem single_value_without_error_is_serialized (env : Env) (req : InvocationRequest)
    (f : Func) (params : List Value) (v : Iface) (s : String)
    (hf : env.LoadedFuncs req.FunctionId = some f)
    (hp : getFuncParams env req (some f) = Res.ok params)
    (hc : Call f.Func params = Exec.done [v])
    (hv : v.implementsError = false)
    (hm : env.Marshal v = some s) :
    (ExecuteFunc env req).result =
      Exec.done (InvocationResponse.mk req.InvocationId
        (StatusResult.mk Status.StatusResult_Success) (TypedData.Json s)) := by
  rw [ExecuteFunc_resolved env req f params _ hf hp hc]
  simp [reduceOutput, hv, hm, bytesToString]

/-- C10, evaluated on the code: for a found registration and a successful resolution, when the
function returns a single null error, a nil pointer of a concrete type that implements `error`
(the result is declared with that type), the clause `case error:` matches, the test `o != nil`
holds on the interface, and the response has status Failure and the empty return value;
nothing is handed to `json.Marshal`. The claim holds for the nil interface and for every value
of a type that does not implement `error`. -/
theorem C10_nil_error_pointer_is_failure (env : Env) (req : InvocationRequest) (f : Func)
    (params : List Value) (t : GoType)
    (hf : env.LoadedFuncs req.FunctionId = some f)
    (hp : getFuncParams env req (some f) = Res.ok params)
    (hc : Call f.Func params = Exec.done [Iface.nilError t]) :
    (Iface.nilError t).isNull = true ∧
      (ExecuteFunc env req).result =
        Exec.done (InvocationResponse.mk req.InvocationId
          (StatusResult.mk Status.StatusResult_Failure) TypedData.empty) ∧
      (ExecuteFunc env req).marshalled = [] := by
  rw [ExecuteFunc_resolved env req f params _ hf hp hc]
  simp [reduceOutput, Iface.implementsError, Iface.isNull]

/-- Witness of C10: the function is declared `func Run(ctx *azfunc.Context) *myErr` and
returns `nil`, which `json.Marshal` would encode as `null`. -/
theorem C10_nil_error_pointer_is_failure_witness :
    (sampleMarshal (Iface.nilError myErrType) = some "null" ∧
      (Iface.nilError myErrType).isNull = true) ∧
      (ExecuteFunc (sampleEnv (singleton "f0" (contextFunc [Iface.nilError myErrType])) id)
          contextRequest).result =
        Exec.done (InvocationResponse.mk contextRequest.InvocationId
          (StatusResult.mk Status.StatusResult_Failure) TypedData.empty) ∧
      (ExecuteFunc (sampleEnv (singleton "f0" (contextFunc [Iface.nilError myErrType])) id)
          contextRequest).marshalled = [] :=
  ⟨⟨rfl, rfl⟩,
    (C10_nil_error_pointer_is_failure
      (sampleEnv (singleton "f0" (contextFunc [Iface.nilError myErrType])) id) contextRequest
      (contextFunc [Iface.nilError myErrType]) [Value.ofContext (Context.mk "f0" "inv-7")]
      myErrType rfl (by decide) (by decide)).2⟩

/-! ## Zero outputs and the dispatch of `getValueFromBinding` (C11, C12) -/

/-- C11: for a found registration and a successful resolution, when the function returns no
value, the response of `ExecuteFunc` has status Success and the empty return value, the
`rpc.TypedData` without payload. -/
theorem C11_no_output_is_success (env : Env) (req : InvocationRequest) (f : Func)
    (params : List Value)
    (hf : env.LoadedFuncs req.FunctionId = some f)
    (hp : getFuncParams env req (some f) = Res.ok params)
    (hc : Call f.Func params = Exec.done []) :
    (ExecuteFunc env req).result =
      Exec.done (InvocationResponse.mk req.InvocationId
        (StatusResult.mk Status.StatusResult_Success) TypedData.empty) := by
  rw [ExecuteFunc_resolved env req f params _ hf hp hc]
  simp [reduceOutput, Iface.implementsError]

/-- Witness of C11: the function takes the context and returns nothing. -/
theorem C11_no_output_is_success_witness :
    (ExecuteFunc (sampleEnv (singleton "f0" (contextFunc [])) id) contextRequest).result =
      Exec.done (InvocationResponse.mk contextRequest.InvocationId
        (StatusResult.mk Status.StatusResult_Success) TypedData.empty) :=
  C11_no_output_is_success (sampleEnv (singleton "f0" (contextFunc [])) id) contextRequest
    (contextFunc []) [Value.ofContext (Context.mk "f0" "inv-7")] rfl (by decide) (by decide)

/-- C12, evaluated on the code: `getValueFromBinding` never returns an error. It returns the
converted value for the HTTP trigger kind with an HTTP payload and for the blob kind with a
string payload, when the converter succeeds; in every other case, the unhandled combinations
and the failures of a converter included, it panics, because each error return evaluates
`reflect.New(nil)` first. The last two conjuncts evaluate the binding kind `queue` and a
failing conversion of an HTTP payload. -/
theorem C12_error_returns_panic :
    (∀ (env : Env) (input : ParameterBinding) (binding : BindingInfo),
      (∃ r h, binding.Type_ = BindingType.HTTPTriggerType ∧
          input.Data = some (TypedData.Http r) ∧ env.ConvertToHTTPRequest r = Except.ok h ∧
          getValueFromBinding env input binding = Res.ok (Value.ofNative h)) ∨
        (∃ d b, binding.Type_ = BindingType.BlobBindingType ∧
          input.Data = some (TypedData.String_ d) ∧ env.ConvertToBlobInput d = Except.ok b ∧
          getValueFromBinding env input binding = Res.ok (Value.ofNative b)) ∨
        (∃ p, getValueFromBinding env input binding = Res.panic p)) ∧
      getValueFromBinding (sampleEnv (fun _ => none) id) queueInput
        (BindingInfo.mk (BindingType.Other "queue")) = Res.panic Panic.reflectNewNil ∧
      sampleConvertToHTTPRequest (RpcHttp.mk "") = Except.error "empty http message" ∧
      getValueFromBinding (sampleEnv (fun _ => none) id) emptyHttpInput
        (BindingInfo.mk BindingType.HTTPTriggerType) = Res.panic Panic.reflectNewNil := by
  refine ⟨?_, rfl, rfl, rfl⟩
  intro env input binding
  obtain ⟨name, data⟩ := input
  obtain ⟨t⟩ := binding
  cases t with
  | HTTPTriggerType =>
    cases data with
    | none => exact Or.inr (Or.inr ⟨_, rfl⟩)
    | some d =>
      cases d with
      | Http r =>
        cases hc : env.ConvertToHTTPRequest r with
        | error msg =>
          refine Or.inr (Or.inr ⟨Panic.reflectNewNil, ?_⟩)
          simp [getValueFromBinding, hc, returnNewNil, reflect_New_nil, Res.bind]
        | ok h =>
          refine Or.inl ⟨r, h, rfl, rfl, hc, ?_⟩
          simp [getValueFromBinding, hc]
      | empty => exact Or.inr (Or.inr ⟨_, rfl⟩)
      | Json s => exact Or.inr (Or.inr ⟨_, rfl⟩)
      | String_ s => exact Or.inr (Or.inr ⟨_, rfl⟩)
      | Other tag => exact Or.inr (Or.inr ⟨_, rfl⟩)
  | BlobBindingType =>
    cases data with
    | none => exact Or.inr (Or.inr ⟨_, rfl⟩)
    | some d =>
      cases d with
      | String_ s =>
        cases hc : env.ConvertToBlobInput s with
        | error msg =>
          refine Or.inr (Or.inr ⟨Panic.reflectNewNil, ?_⟩)
          simp [getValueFromBinding, hc, returnNewNil, reflect_New_nil, Res.bind]
        | ok b =>
          refine Or.inr (Or.inl ⟨s, b, rfl, rfl, hc, ?_⟩)
          simp [getValueFromBinding, hc]
      | empty => exact Or.inr (Or.inr ⟨_, rfl⟩)
      | Json s => exact Or.inr (Or.inr ⟨_, rfl⟩)
      | Http r => exact Or.inr (Or.inr ⟨_, rfl⟩)
      | Other tag => exact Or.inr (Or.inr ⟨_, rfl⟩)
  | Other name => exact Or.inr (Or.inr ⟨_, rfl⟩)

/-! ## The exact result of the two loops -/

theorem collectArgs_step (env : Env) (f : Func) (y : ParameterBinding)
    (rest : List ParameterBinding) (args c : Args)
    (h : collectArgs env f (y :: rest) args = Res.ok c) :
    ∃ b v, f.Bindings y.Name = some b ∧ getValueFromBinding env y b = Res.ok v ∧
      collectArgs env f rest ((y.Name, v) :: args) = Res.ok c := by
  simp only [collectArgs] at h
  cases hb : f.Bindings y.Name with
  | none => simp [hb] at h
  | some b =>
    simp only [hb] at h
    cases hv : getValueFromBinding env y b with
    | ok v =>
      simp only [hv] at h
      exact ⟨b, v, rfl, hv, h⟩
    | err e => simp [hv] at h
    | panic p => simp [hv] at h

theorem collectArgs_converted (env : Env) (f : Func) (y : ParameterBinding)
    (rest : List ParameterBinding) (args : Args) (b : BindingInfo) (v : Value)
    (hb : f.Bindings y.Name = some b) (hv : getValueFromBinding env y b = Res.ok v) :
    collectArgs env f (y :: rest) args = collectArgs env f rest ((y.Name, v) :: args) := by
  simp only [collectArgs, hb, hv]

theorem collectArgs_bind (env : Env) (f : Func) (pre post : List ParameterBinding) :
    ∀ args : Args, collectArgs env f (pre ++ post) args =
      Res.bind (collectArgs env f pre args) (fun a => collectArgs env f post a) := by
  induction pre with
  | nil => intro args; rfl
  | cons y ys ih =>
    intro args
    rw [List.cons_append]
    cases hb : f.Bindings y.Name with
    | none => simp only [collectArgs, hb, Res.bind]
    | some b =>
      cases hv : getValueFromBinding env y b with
      | ok v =>
        simp only [collectArgs, hb, hv]
        exact ih _
      | err e => simp only [collectArgs, hb, hv, Res.bind]
      | panic p => simp only [collectArgs, hb, hv, Res.bind]

theorem collectArgs_acc (env : Env) (f : Func) (inputs : List ParameterBinding) :
    ∀ args : Args, collectArgs env f inputs args =
      Res.bind (collectArgs env f inputs []) (fun c => Res.ok (c ++ args)) := by
  induction inputs with
  | nil => intro args; rfl
  | cons y ys ih =>
    intro args
    cases hb : f.Bindings y.Name with
    | none => simp only [collectArgs, hb, Res.bind]
    | some b =>
      cases hv : getValueFromBinding env y b with
      | ok v =>
        simp only [collectArgs, hb, hv]
        rw [ih ((y.Name, v) :: args), ih [(y.Name, v)]]
        cases hc : collectArgs env f ys [] with
        | ok c => simp [Res.bind]
        | err e => simp only [Res.bind]
        | panic p => simp only [Res.bind]
      | err e => simp only [collectArgs, hb, hv, Res.bind]
      | panic p => simp only [collectArgs, hb, hv, Res.bind]

theorem collectArgs_lookup_other (env : Env) (f : Func) (inputs : List ParameterBinding) :
    ∀ (args c : Args), collectArgs env f inputs args = Res.ok c →
      ∀ k : String, (∀ y ∈ inputs, y.Name ≠ k) → c.lookup k = args.lookup k := by
  induction inputs with
  | nil =>
    intro args c h k _
    simp only [collectArgs, Res.ok.injEq] at h
    rw [h]
  | cons y ys ih =>
    intro args c h k hk
    obtain ⟨b, v, _, _, hrest⟩ := collectArgs_step env f y ys args c h
    rw [ih _ c hrest k (fun z hz => hk z (List.mem_cons_of_mem y hz))]
    have hne : (k == y.Name) = false := by
      simpa using fun hky => hk y (List.mem_cons_self y ys) hky.symm
    simp [List.lookup, hne]

theorem collectArgs_lookup_some (env : Env) (f : Func) (inputs : List ParameterBinding) :
    ∀ (args c : Args), collectArgs env f inputs args = Res.ok c →
      ∀ y ∈ inputs, (c.lookup y.Name).isSome = true := by
  induction inputs with
  | nil => intro args c _ y hy; simp at hy
  | cons z zs ih =>
    intro args c h y hy
    obtain ⟨b, v, _, _, hrest⟩ := collectArgs_step env f z zs args c h
    rcases List.mem_cons.mp hy with hyz | hyzs
    · subst hyz
      by_cases hlater : ∃ w ∈ zs, w.Name = y.Name
      · obtain ⟨w, hw, hwn⟩ := hlater
        rw [← hwn]
        exact ih _ c hrest w hw
      · rw [collectArgs_lookup_other env f zs _ c hrest y.Name
          (fun w hw hwn => hlater ⟨w, hw, hwn⟩)]
        simp
    · exact ih _ c hrest y hyzs

theorem take_set_succ (l : List Value) (i : Nat) (p : Value) (h : i < l.length) :
    (l.set i p).take (i + 1) = l.take i ++ [p] := by
  apply List.ext_getElem?
  intro j
  by_cases hj : j < i
  · rw [List.getElem?_take_of_lt (by omega), List.getElem?_set_ne (by omega),
      List.getElem?_append_left (by simp only [List.length_take]; omega),
      List.getElem?_take_of_lt hj]
  · by_cases hji : j = i
    · subst hji
      rw [List.getElem?_take_of_lt (by omega), List.getElem?_set_eq_of_lt p h,
        List.getElem?_append_right (by simp only [List.length_take]; omega)]
      simp [Nat.min_eq_left (Nat.le_of_lt h)]
    · have h1 : ((l.set i p).take (i + 1))[j]? = none := by
        rw [List.getElem?_eq_none_iff]
        simp only [List.length_take, List.length_set]
        omega
      have h2 : (l.take i ++ [p])[j]? = none := by
        rw [List.getElem?_eq_none_iff]
        simp only [List.length_append, List.length_take, List.length_singleton]
        omega
      rw [h1, h2]

theorem fillParams_eq (args : Args) (ctx : Context) (visit : List (String × GoType)) :
    ∀ (params : List Value) (i : Nat) (ps : List Value),
      fillParams args ctx visit params i = Res.ok ps → i + visit.length ≤ params.length →
      ps = params.take i ++ visit.map (slotValue args ctx) ++
        params.drop (i + visit.length) := by
  induction visit with
  | nil =>
    intro params i ps h _
    simp only [fillParams, Res.ok.injEq] at h
    simp [← h]
  | cons e rest ih =>
    intro params i ps h hlen
    obtain ⟨k, v⟩ := e
    simp only [List.length_cons] at hlen
    have hi : i < params.length := by omega
    have hstep : ∀ p : Value, slotValue args ctx (k, v) = p →
        fillParams args ctx rest (params.set i p) (i + 1) = Res.ok ps →
        ps = params.take i ++ List.map (slotValue args ctx) ((k, v) :: rest) ++
          params.drop (i + (rest.length + 1)) := by
      intro p hp hrest
      have h2 := ih (params.set i p) (i + 1) ps hrest (by simp only [List.length_set]; omega)
      rw [h2, take_set_succ params i p hi,
        List.drop_set_of_lt p params (show i < i + 1 + rest.length by omega)]
      simp only [List.map_cons, hp, List.append_assoc, List.singleton_append]
      rw [show i + 1 + rest.length = i + (rest.length + 1) by omega]
    cases hlk : args.lookup k with
    | some p =>
      simp only [fillParams, hlk, setParam, hi, if_true, Res.bind] at h
      exact hstep p (by simp [slotValue, hlk]) h
    | none =>
      by_cases hv : v = ContextType
      · simp only [fillParams, hlk, hv, setParam, hi, if_true, Res.bind] at h
        exact hstep (Value.ofContext ctx) (by simp [slotValue, hlk]) h
      · simp [fillParams, hlk, hv] at h

theorem fillParams_unsatisfied (args : Args) (ctx : Context)
    (visit : List (String × GoType)) :
    ∀ (params : List Value) (i : Nat), i + visit.length ≤ params.length →
      (∃ e ∈ visit, args.lookup e.1 = none ∧ e.2 ≠ ContextType) →
      fillParams args ctx visit params i = Res.err GoError.namedArgumentNotFound := by
  induction visit with
  | nil => intro params i _ h; obtain ⟨e, he, _⟩ := h; simp at he
  | cons e rest ih =>
    intro params i hlen hbad
    obtain ⟨k, v⟩ := e
    simp only [List.length_cons] at hlen
    have hi : i < params.length := by omega
    have hnext : ∀ p : Value, i + 1 + rest.length ≤ (params.set i p).length := by
      intro p
      simp only [List.length_set]
      omega
    obtain ⟨e, he, hnone, hty⟩ := hbad
    cases hlk : args.lookup k with
    | some p =>
      simp only [fillParams, hlk, setParam, hi, if_true, Res.bind]
      apply ih _ _ (hnext p)
      rcases List.mem_cons.mp he with heq | hrest
      · subst heq
        simp [hlk] at hnone
      · exact ⟨e, hrest, hnone, hty⟩
    | none =>
      by_cases hv : v = ContextType
      · simp only [fillParams, hlk, hv, setParam, hi, if_true, Res.bind]
        apply ih _ _ (hnext _)
        rcases List.mem_cons.mp he with heq | hrest
        · subst heq
          exact absurd hv hty
        · exact ⟨e, hrest, hnone, hty⟩
      · simp [fillParams, hlk, hv]

theorem fillParams_congr (args args2 : Args) (ctx : Context)
    (visit : List (String × GoType)) :
    (∀ e ∈ visit, args.lookup e.1 = args2.lookup e.1) →
      ∀ (params : List Value) (i : Nat),
        fillParams args ctx visit params i = fillParams args2 ctx visit params i := by
  induction visit with
  | nil => intro _ params i; rfl
  | cons e rest ih =>
    intro h params i
    obtain ⟨k, v⟩ := e
    have hk : args.lookup k = args2.lookup k := h (k, v) (List.mem_cons_self _ _)
    have hrest := ih (fun e he => h e (List.mem_cons_of_mem _ he))
    simp only [fillParams, hk]
    cases args2.lookup k with
    | some p =>
      simp only []
      cases setParam params i p with
      | ok ps => simp only [Res.bind]; exact hrest ps (i + 1)
      | err e => rfl
      | panic p => rfl
    | none =>
      simp only []
      by_cases hv : v = ContextType
      · simp only [hv, if_true]
        cases setParam params i (Value.ofContext ctx) with
        | ok ps => simp only [Res.bind]; exact hrest ps (i + 1)
        | err e => rfl
        | panic p => rfl
      · simp only [hv, if_false]

theorem getFuncParams_ok (env : Env) (req : InvocationRequest) (f : Func)
    (params : List Value)
    (h : getFuncParams env req (some f) = Res.ok params)
    (hperm : (env.rangeOrder f.NamedInArgs).Perm f.NamedInArgs) :
    ∃ args : Args, collectArgs env f req.InputData [] = Res.ok args ∧
      params = (env.rangeOrder f.NamedInArgs).map
        (slotValue args (Context.mk req.FunctionId req.InvocationId)) := by
  simp only [getFuncParams] at h
  cases hc : collectArgs env f req.InputData [] with
  | ok args =>
    simp only [hc] at h
    refine ⟨args, rfl, ?_⟩
    have h2 := fillParams_eq args _ _ _ 0 params h (by simp [hperm.length_eq])
    rw [h2]
    simp [hperm.length_eq]
  | err e => simp [hc] at h
  | panic p => simp [hc] at h

/-! ## Unsatisfied parameters (C13) -/

/-- C13: when every input of the request converts and some declared parameter has no input
under its name and not the context type, `getFuncParams` returns the error "named argument not
found" and no argument list, in whatever order the entries of `NamedInArgs` are visited. -/
theorem C13_unsatisfied_parameter_fails (env : Env) (req : InvocationRequest) (f : Func)
    (k : String) (t : GoType)
    (hconv : ∀ input ∈ req.InputData, Converts env f input)
    (hdecl : (k, t) ∈ f.NamedInArgs)
    (hnone : ∀ input ∈ req.InputData, input.Name ≠ k)
    (hty : t ≠ ContextType)
    (hperm : (env.rangeOrder f.NamedInArgs).Perm f.NamedInArgs) :
    getFuncParams env req (some f) = Res.err GoError.namedArgumentNotFound := by
  obtain ⟨args, hargs, _⟩ := collectArgs_ok env f req.InputData [] hconv
  have hlk : args.lookup k = none := by
    rw [collectArgs_lookup_other env f req.InputData [] args hargs k hnone]
    rfl
  simp only [getFuncParams, hargs]
  exact fillParams_unsatisfied args _ _ _ 0 (by simp [hperm.length_eq])
    ⟨(k, t), hperm.symm.subset hdecl, hlk, hty⟩

/-- Witness of C13: the request brings the input `req`, and the parameter `name`, a string,
has no input. -/
theorem C13_unsatisfied_parameter_fails_witness :
    getFuncParams (sampleEnv (singleton "f0" unfillableFunc) List.reverse) httpRequest
      (some unfillableFunc) = Res.err GoError.namedArgumentNotFound :=
  C13_unsatisfied_parameter_fails (sampleEnv (singleton "f0" unfillableFunc) List.reverse)
    httpRequest unfillableFunc "name" (GoType.Named "string")
    (by
      intro y hy
      simp only [httpRequest, List.mem_singleton] at hy
      subst hy
      exact ⟨BindingInfo.mk BindingType.HTTPTriggerType,
        Value.ofNative (Native.mk HTTPRequestType "GET /"), by decide, by decide⟩)
    (by decide) (by decide) (by decide)
    (List.reverse_perm unfillableFunc.NamedInArgs)

/-! ## Serialization failures, the invocation id, filled positions, other arities
(C14 to C17) -/

theorem collectArgs_withMarshal (env : Env) (m : Iface → Option String) (f : Func)
    (inputs : List ParameterBinding) :
    ∀ args : Args, collectArgs (env.withMarshal m) f inputs args =
      collectArgs env f inputs args := by
  induction inputs with
  | nil => intro args; rfl
  | cons y ys ih =>
    intro args
    have hv : ∀ b, getValueFromBinding (env.withMarshal m) y b =
        getValueFromBinding env y b := fun _ => rfl
    simp only [collectArgs, hv, ih]

theorem getFuncParams_withMarshal (env : Env) (m : Iface → Option String)
    (req : InvocationRequest) (f : Option Func) :
    getFuncParams (env.withMarshal m) req f = getFuncParams env req f := by
  cases f with
  | none => rfl
  | some f =>
    simp only [getFuncParams, collectArgs_withMarshal]
    rfl

theorem ExecuteFunc_called (env : Env) (req : InvocationRequest) (f : Func)
    (output : List Iface)
    (hf : env.LoadedFuncs req.FunctionId = some f)
    (hnp : (getFuncParams env req (some f)).panicked = false)
    (hc : Call f.Func (paramsOf (getFuncParams env req (some f))) = Exec.done output) :
    ExecuteFunc env req =
      Run.mk (Exec.done (InvocationResponse.mk req.InvocationId
        (StatusResult.mk
          (reduceOutput env (statusBeforeCall (getFuncParams env req (some f))) output).status)
        (reduceOutput env (statusBeforeCall (getFuncParams env req (some f)))
          output).returnValue))
        [paramsOf (getFuncParams env req (some f))]
        (reduceOutput env (statusBeforeCall (getFuncParams env req (some f)))
          output).marshalled := by
  cases hp : getFuncParams env req (some f) with
  | ok params =>
    rw [hp] at hc
    rw [ExecuteFunc_resolved env req f params _ hf hp hc]
    rfl
  | err e =>
    rw [hp] at hc
    rw [ExecuteFunc_unresolved env req f e _ hf hp hc]
    rfl
  | panic p => simp [hp, Res.panicked] at hnp

/-- C14: when the function returns one value whose type does not implement `error` (the nil
interface included), or two values, and `json.Marshal` fails on the value to return,
`ExecuteFunc` still returns a response; its return value is the Json payload with empty
content, and its status is the status of the same invocation under any `json.Marshal` that
encodes the value. -/
theorem C14_marshal_failure_keeps_status (env : Env) (req : InvocationRequest) (f : Func)
    (v : Iface) (output : List Iface)
    (hf : env.LoadedFuncs req.FunctionId = some f)
    (hnp : (getFuncParams env req (some f)).panicked = false)
    (hc : Call f.Func (paramsOf (getFuncParams env req (some f))) = Exec.done output)
    (hshape : (output = [v] ∧ v.implementsError = false) ∨
      (∃ o1 : Iface, output = [v, o1]))
    (hm : env.Marshal v = none) :
    ∃ st : Status,
      (ExecuteFunc env req).result =
        Exec.done (InvocationResponse.mk req.InvocationId (StatusResult.mk st)
          (TypedData.Json "")) ∧
      ∀ (m : Iface → Option String) (s : String), m v = some s →
        (ExecuteFunc (env.withMarshal m) req).result =
          Exec.done (InvocationResponse.mk req.InvocationId (StatusResult.mk st)
            (TypedData.Json s)) := by
  have hother : ∀ m : Iface → Option String,
      ExecuteFunc (env.withMarshal m) req =
        Run.mk (Exec.done (InvocationResponse.mk req.InvocationId
          (StatusResult.mk (reduceOutput (env.withMarshal m)
            (statusBeforeCall (getFuncParams env req (some f))) output).status)
          (reduceOutput (env.withMarshal m)
            (statusBeforeCall (getFuncParams env req (some f))) output).returnValue))
          [paramsOf (getFuncParams env req (some f))]
          (reduceOutput (env.withMarshal m)
            (statusBeforeCall (getFuncParams env req (some f))) output).marshalled := by
    intro m
    have h := ExecuteFunc_called (env.withMarshal m) req f output hf
      (by rw [getFuncParams_withMarshal]; exact hnp)
      (by rw [getFuncParams_withMarshal]; exact hc)
    rw [getFuncParams_withMarshal] at h
    exact h
  rw [ExecuteFunc_called env req f output hf hnp hc]
  rcases hshape with ⟨rfl, hv⟩ | ⟨o1, rfl⟩
  · refine ⟨statusBeforeCall (getFuncParams env req (some f)), ?_, ?_⟩
    · simp [reduceOutput, hv, hm, bytesToString]
    · intro m s hms
      rw [hother m]
      simp [reduceOutput, hv, Env.withMarshal, hms, bytesToString]
  · cases ho : o1.implementsError with
    | false =>
      refine ⟨statusBeforeCall (getFuncParams env req (some f)), ?_, ?_⟩
      · simp [reduceOutput, ho, hm, bytesToString]
      · intro m s hms
        rw [hother m]
        simp [reduceOutput, ho, Env.withMarshal, hms, bytesToString]
    | true =>
      have hne := implementsError_ne_nil o1 ho
      refine ⟨Status.StatusResult_Failure, ?_, ?_⟩
      · simp [reduceOutput, ho, hne, hm, bytesToString]
      · intro m s hms
        rw [hother m]
        simp [reduceOutput, ho, hne, Env.withMarshal, hms, bytesToString]

/-- Witness of C14: the function returns `(channel, nil)`; the sample `json.Marshal` cannot
encode a channel. -/
theorem C14_marshal_failure_keeps_status_witness :
    ∃ st : Status,
      (ExecuteFunc (sampleEnv (singleton "f0" (contextFunc [channel, Iface.nil])) id)
          contextRequest).result =
        Exec.done (InvocationResponse.mk contextRequest.InvocationId (StatusResult.mk st)
          (TypedData.Json "")) ∧
      ∀ (m : Iface → Option String) (s : String), m channel = some s →
        (ExecuteFunc ((sampleEnv (singleton "f0" (contextFunc [channel, Iface.nil]))
            id).withMarshal m) contextRequest).result =
          Exec.done (InvocationResponse.mk contextRequest.InvocationId (StatusResult.mk st)
            (TypedData.Json s)) :=
  C14_marshal_failure_keeps_status
    (sampleEnv (singleton "f0" (contextFunc [channel, Iface.nil])) id) contextRequest
    (contextFunc [channel, Iface.nil]) channel [channel, Iface.nil] rfl (by decide)
    (by decide) (Or.inr ⟨Iface.nil, rfl⟩) (by decide)

/-- C15: whenever `ExecuteFunc` returns a response, the invocation id of the response is the
invocation id of the request. -/
theorem C15_response_carries_request_id (env : Env) (req : InvocationRequest)
    (resp : InvocationResponse)
    (h : (ExecuteFunc env req).result = Exec.done resp) :
    resp.InvocationId = req.InvocationId := by
  have hinv : ∀ (st : Status) (ps : List Value),
      (invoke env req (env.LoadedFuncs req.FunctionId) st ps).result = Exec.done resp →
      resp.InvocationId = req.InvocationId := by
    intro st ps h2
    simp only [invoke] at h2
    cases hf : env.LoadedFuncs req.FunctionId with
    | none => simp [hf] at h2
    | some fn =>
      simp only [hf] at h2
      cases hc : Call fn.Func ps with
      | panic p => simp [hc] at h2
      | done output =>
        simp only [hc, Exec.done.injEq] at h2
        rw [← h2]
  simp only [ExecuteFunc] at h
  cases hp : getFuncParams env req (env.LoadedFuncs req.FunctionId) with
  | ok params =>
    simp only [hp] at h
    exact hinv _ _ h
  | err e =>
    simp only [hp] at h
    exact hinv _ _ h
  | panic p => simp [hp] at h

/-- Witness of C15: the response to the request `inv-7` carries the id `inv-7`. -/
theorem C15_response_carries_request_id_witness :
    (InvocationResponse.mk "inv-7" (StatusResult.mk Status.StatusResult_Success)
      (TypedData.Json "42")).InvocationId = contextRequest.InvocationId :=
  C15_response_carries_request_id (sampleEnv (singleton "f0" (contextFunc [answer])) id)
    contextRequest
    (InvocationResponse.mk "inv-7" (StatusResult.mk Status.StatusResult_Success)
      (TypedData.Json "42")) (by decide)

theorem getValueFromBinding_ok_native (env : Env) (input : ParameterBinding)
    (binding : BindingInfo) (v : Value)
    (h : getValueFromBinding env input binding = Res.ok v) :
    ∃ x : Native, v = Value.ofNative x := by
  obtain ⟨name, data⟩ := input
  obtain ⟨t⟩ := binding
  cases t with
  | HTTPTriggerType =>
    cases data with
    | none => simp [getValueFromBinding] at h
    | some d =>
      cases d with
      | Http r =>
        cases hc : env.ConvertToHTTPRequest r with
        | error msg =>
          simp [getValueFromBinding, hc, returnNewNil, reflect_New_nil, Res.bind] at h
        | ok x =>
          simp only [getValueFromBinding, hc, Res.ok.injEq] at h
          exact ⟨x, h.symm⟩
      | empty => simp [getValueFromBinding, returnNewNil, reflect_New_nil, Res.bind] at h
      | Json s => simp [getValueFromBinding, returnNewNil, reflect_New_nil, Res.bind] at h
      | String_ s => simp [getValueFromBinding, returnNewNil, reflect_New_nil, Res.bind] at h
      | Other tag => simp [getValueFromBinding, returnNewNil, reflect_New_nil, Res.bind] at h
  | BlobBindingType =>
    cases data with
    | none => simp [getValueFromBinding] at h
    | some d =>
      cases d with
      | String_ s =>
        cases hc : env.ConvertToBlobInput s with
        | error msg =>
          simp [getValueFromBinding, hc, returnNewNil, reflect_New_nil, Res.bind] at h
        | ok x =>
          simp only [getValueFromBinding, hc, Res.ok.injEq] at h
          exact ⟨x, h.symm⟩
      | empty => simp [getValueFromBinding, returnNewNil, reflect_New_nil, Res.bind] at h
      | Json s => simp [getValueFromBinding, returnNewNil, reflect_New_nil, Res.bind] at h
      | Http r => simp [getValueFromBinding, returnNewNil, reflect_New_nil, Res.bind] at h
      | Other tag => simp [getValueFromBinding, returnNewNil, reflect_New_nil, Res.bind] at h
  | Other name => simp [getValueFromBinding, returnNewNil, reflect_New_nil, Res.bind] at h

theorem collectArgs_nonzero (env : Env) (f : Func) (inputs : List ParameterBinding) :
    ∀ (args c : Args), collectArgs env f inputs args = Res.ok c →
      (∀ e ∈ args, e.2 ≠ Value.zero) → ∀ e ∈ c, e.2 ≠ Value.zero := by
  induction inputs with
  | nil =>
    intro args c h hargs
    simp only [collectArgs, Res.ok.injEq] at h
    rw [← h]
    exact hargs
  | cons y ys ih =>
    intro args c h hargs
    obtain ⟨b, v, _, hv, hrest⟩ := collectArgs_step env f y ys args c h
    obtain ⟨x, hx⟩ := getValueFromBinding_ok_native env y b v hv
    apply ih _ c hrest
    intro e he
    rcases List.mem_cons.mp he with heq | hmem
    · rw [heq, hx]
      exact Value.noConfusion
    · exact hargs e hmem

theorem lookup_mem (args : Args) (k : String) (p : Value) (h : args.lookup k = some p) :
    (k, p) ∈ args := by
  obtain ⟨l1, l2, hl, _⟩ := List.lookup_eq_some_iff.mp h
  rw [hl]
  simp

theorem slotValue_nonzero (args : Args) (ctx : Context) (e : String × GoType)
    (hargs : ∀ a ∈ args, a.2 ≠ Value.zero) :
    slotValue args ctx e ≠ Value.zero := by
  unfold slotValue
  cases hlk : args.lookup e.1 with
  | some p => exact hargs (e.1, p) (lookup_mem args e.1 p hlk)
  | none => exact Value.noConfusion

/-- C16: whenever `getFuncParams` returns an argument list, its length is the number of
declared parameters, `len(f.NamedInArgs)`, and none of its positions still holds the zero
Value with which the slice was made, in whatever order the entries of `NamedInArgs` are
visited. -/
theorem C16_every_position_filled (env : Env) (req : InvocationRequest) (f : Func)
    (params : List Value)
    (h : getFuncParams env req (some f) = Res.ok params)
    (hperm : (env.rangeOrder f.NamedInArgs).Perm f.NamedInArgs) :
    params.length = f.NamedInArgs.length ∧ ∀ v ∈ params, v ≠ Value.zero := by
  obtain ⟨args, hargs, hparams⟩ := getFuncParams_ok env req f params h hperm
  have hnz := collectArgs_nonzero env f req.InputData [] args hargs (by simp)
  refine ⟨?_, ?_⟩
  · rw [hparams, List.length_map, hperm.length_eq]
  · intro v hv
    rw [hparams] at hv
    obtain ⟨e, _, he⟩ := List.mem_map.mp hv
    rw [← he]
    exact slotValue_nonzero args _ e hnz

/-- Witness of C16: the two arguments resolved for `httpBlobFunc`, the map visited in
reverse. -/
theorem C16_every_position_filled_witness :
    [Value.ofNative (Native.mk BlobType "data"),
        Value.ofNative (Native.mk HTTPRequestType "GET /")].length =
      httpBlobFunc.NamedInArgs.length ∧
    ∀ v ∈ [Value.ofNative (Native.mk BlobType "data"),
        Value.ofNative (Native.mk HTTPRequestType "GET /")], v ≠ Value.zero :=
  C16_every_position_filled (sampleEnv (singleton "f0" httpBlobFunc) List.reverse)
    httpBlobRequest httpBlobFunc
    [Value.ofNative (Native.mk BlobType "data"),
      Value.ofNative (Native.mk HTTPRequestType "GET /")]
    (by decide) (List.reverse_perm httpBlobFunc.NamedInArgs)

/-- C17: when the function returns three or more values, the response of `ExecuteFunc` has
the empty return value and the status computed before the call, Success when resolution
succeeded and Failure when it returned an error; nothing is handed to `json.Marshal` and the
returned values do not appear in the response. -/
theorem C17_other_arities_pass_through (env : Env) (req : InvocationRequest) (f : Func)
    (output : List Iface)
    (hf : env.LoadedFuncs req.FunctionId = some f)
    (hnp : (getFuncParams env req (some f)).panicked = false)
    (hc : Call f.Func (paramsOf (getFuncParams env req (some f))) = Exec.done output)
    (hlen : 3 ≤ output.length) :
    (ExecuteFunc env req).result =
        Exec.done (InvocationResponse.mk req.InvocationId
          (StatusResult.mk (statusBeforeCall (getFuncParams env req (some f))))
          TypedData.empty) ∧
      (ExecuteFunc env req).marshalled = [] := by
  rw [ExecuteFunc_called env req f output hf hnp hc]
  match output, hlen with
  | o0 :: o1 :: o2 :: rest, _ => simp [reduceOutput, Iface.implementsError]

/-- Witness of C17: the function returns three values, the last one an error; the status
stays Success. -/
theorem C17_other_arities_pass_through_witness :
    (ExecuteFunc (sampleEnv (singleton "f0" (contextFunc threeOutputs)) id)
          contextRequest).result =
        Exec.done (InvocationResponse.mk contextRequest.InvocationId
          (StatusResult.mk (statusBeforeCall
            (getFuncParams (sampleEnv (singleton "f0" (contextFunc threeOutputs)) id)
              contextRequest (some (contextFunc threeOutputs)))))
          TypedData.empty) ∧
      (ExecuteFunc (sampleEnv (singleton "f0" (contextFunc threeOutputs)) id)
          contextRequest).marshalled = [] :=
  C17_other_arities_pass_through (sampleEnv (singleton "f0" (contextFunc threeOutputs)) id)
    contextRequest (contextFunc threeOutputs) threeOutputs rfl (by decide) (by decide)
    (by decide)

/-! ## Duplicate and unused inputs (C18, C19) -/

theorem getFuncParams_bind (env : Env) (req : InvocationRequest) (f : Func) :
    getFuncParams env req (some f) =
      Res.bind (collectArgs env f req.InputData [])
        (fun args => fillParams args (Context.mk req.FunctionId req.InvocationId)
          (env.rangeOrder f.NamedInArgs) (List.replicate f.NamedInArgs.length Value.zero) 0) := by
  simp only [getFuncParams]
  cases collectArgs env f req.InputData [] with
  | ok args => rfl
  | err e => rfl
  | panic p => rfl

theorem collectArgs_last (env : Env) (f : Func) (before post : List ParameterBinding)
    (x : ParameterBinding) (b : BindingInfo) (vx : Value) (c : Args)
    (hb : f.Bindings x.Name = some b) (hvx : getValueFromBinding env x b = Res.ok vx)
    (hlast : ∀ z ∈ post, z.Name ≠ x.Name)
    (h : collectArgs env f (before ++ x :: post) [] = Res.ok c) :
    c.lookup x.Name = some vx := by
  rw [collectArgs_bind] at h
  cases hL : collectArgs env f before [] with
  | ok a =>
    simp only [hL, Res.bind] at h
    rw [collectArgs_converted env f x post a b vx hb hvx] at h
    rw [collectArgs_lookup_other env f post _ c h x.Name hlast]
    simp
  | err e => simp [hL, Res.bind] at h
  | panic p => simp [hL, Res.bind] at h

theorem getFuncParams_drop_input (env : Env) (f : Func) (id fid : String)
    (pre rest : List ParameterBinding) (y : ParameterBinding)
    (hy : Converts env f y)
    (hK : ∀ e ∈ env.rangeOrder f.NamedInArgs, e.1 = y.Name → ∃ z ∈ rest, z.Name = y.Name) :
    getFuncParams env (InvocationRequest.mk id fid (pre ++ y :: rest)) (some f) =
      getFuncParams env (InvocationRequest.mk id fid (pre ++ rest)) (some f) := by
  obtain ⟨b, vy, hb, hvy⟩ := hy
  rw [getFuncParams_bind, getFuncParams_bind]
  simp only []
  rw [collectArgs_bind env f pre (y :: rest), collectArgs_bind env f pre rest]
  cases hpre : collectArgs env f pre [] with
  | err e => simp only [Res.bind]
  | panic p => simp only [Res.bind]
  | ok a =>
    simp only [Res.bind]
    rw [collectArgs_converted env f y rest a b vy hb hvy,
      collectArgs_acc env f rest ((y.Name, vy) :: a), collectArgs_acc env f rest a]
    cases hrest : collectArgs env f rest [] with
    | err e => simp only [Res.bind]
    | panic p => simp only [Res.bind]
    | ok c =>
      simp only [Res.bind]
      apply fillParams_congr
      intro e he
      rw [List.lookup_append, List.lookup_append]
      by_cases hk : e.1 = y.Name
      · obtain ⟨z, hz, hzn⟩ := hK e he hk
        have hsome := collectArgs_lookup_some env f rest [] c hrest z hz
        rw [hzn, ← hk] at hsome
        cases hlk : c.lookup e.1 with
        | some p => rfl
        | none => simp [hlk] at hsome
      · have hne : (e.1 == y.Name) = false := by simpa using hk
        simp [List.lookup, hne]

theorem getFuncParams_succeeds (env : Env) (req : InvocationRequest) (f : Func)
    (hconv : ∀ input ∈ req.InputData, Converts env f input)
    (hcov : ∀ p ∈ f.NamedInArgs,
      (∃ input ∈ req.InputData, input.Name = p.1) ∨ p.2 = ContextType)
    (hperm : (env.rangeOrder f.NamedInArgs).Perm f.NamedInArgs) :
    ∃ params : List Value, getFuncParams env req (some f) = Res.ok params := by
  obtain ⟨args, hargs, hlook⟩ := collectArgs_ok env f req.InputData [] hconv
  obtain ⟨ps, hps, _⟩ := fillParams_ok args (Context.mk req.FunctionId req.InvocationId)
    (env.rangeOrder f.NamedInArgs) (List.replicate f.NamedInArgs.length Value.zero) 0
    (by simp [hperm.length_eq])
    (by
      intro e he
      rcases hcov e (hperm.subset he) with h | h
      · exact Or.inl (hlook e.1 (Or.inl h))
      · exact Or.inr h)
  refine ⟨ps, ?_⟩
  simp only [getFuncParams, hargs]
  exact hps

/-- C18: let the request carry the input `y` and, later, the input `x` of the same name, with
no input of that name after `x`; let every input convert, `vx` being the converted value of
`x`, let that name be the name of a declared parameter, and let every declared parameter be
covered by an input or have the context type. Then `getFuncParams` returns an argument list;
the position filled for the parameter of that name exists and holds `vx`; and the request
without `y` yields the same argument list. -/
theorem C18_last_duplicate_wins (env : Env) (f : Func) (id fid : String)
    (pre mid post : List ParameterBinding) (y x : ParameterBinding) (b : BindingInfo)
    (vx : Value) (t : GoType)
    (hname : y.Name = x.Name)
    (hconv : ∀ input ∈ pre ++ y :: (mid ++ x :: post), Converts env f input)
    (hb : f.Bindings x.Name = some b)
    (hvx : getValueFromBinding env x b = Res.ok vx)
    (hlast : ∀ z ∈ post, z.Name ≠ x.Name)
    (hdecl : (x.Name, t) ∈ f.NamedInArgs)
    (hcov : ∀ p ∈ f.NamedInArgs,
      (∃ input ∈ pre ++ y :: (mid ++ x :: post), input.Name = p.1) ∨ p.2 = ContextType)
    (hperm : (env.rangeOrder f.NamedInArgs).Perm f.NamedInArgs) :
    ∃ params : List Value,
      getFuncParams env (InvocationRequest.mk id fid (pre ++ y :: (mid ++ x :: post)))
        (some f) = Res.ok params ∧
      getFuncParams env (InvocationRequest.mk id fid (pre ++ (mid ++ x :: post)))
        (some f) = Res.ok params ∧
      (∃ j : Nat, (env.rangeOrder f.NamedInArgs)[j]? = some (x.Name, t) ∧
        params[j]? = some vx) ∧
      ∀ (j : Nat) (t2 : GoType), (env.rangeOrder f.NamedInArgs)[j]? = some (x.Name, t2) →
        params[j]? = some vx := by
  obtain ⟨params, h⟩ := getFuncParams_succeeds env
    (InvocationRequest.mk id fid (pre ++ y :: (mid ++ x :: post))) f hconv hcov hperm
  have hpos : ∀ (j : Nat) (t2 : GoType),
      (env.rangeOrder f.NamedInArgs)[j]? = some (x.Name, t2) → params[j]? = some vx := by
    intro j t2 hj
    obtain ⟨args, hargs, hparams⟩ := getFuncParams_ok env _ f params h hperm
    have hsplit : pre ++ y :: (mid ++ x :: post) = (pre ++ y :: mid) ++ x :: post := by simp
    simp only [hsplit] at hargs
    have hlk := collectArgs_last env f (pre ++ y :: mid) post x b vx args hb hvx hlast hargs
    rw [hparams, List.getElem?_map, hj]
    simp [slotValue, hlk]
  have hdrop := getFuncParams_drop_input env f id fid pre (mid ++ x :: post) y
    (hconv y (by simp)) (fun _ _ _ => ⟨x, by simp, hname.symm⟩)
  obtain ⟨j, hj⟩ := List.mem_iff_getElem?.mp (hperm.symm.subset hdecl)
  exact ⟨params, h, hdrop ▸ h, ⟨j, hj, hpos j t hj⟩, hpos⟩

/-- Witness of C18: the request carries `req` twice, first `GET /old`, then `GET /new`; the
argument list is the converted `GET /new`, alone. -/
theorem C18_last_duplicate_wins_witness :
    getFuncParams (sampleEnv (singleton "f0" httpFunc) id)
        (InvocationRequest.mk "inv-8" "f0" [oldHttpInput, newHttpInput]) (some httpFunc) =
      Res.ok [Value.ofNative (Native.mk HTTPRequestType "GET /new")] ∧
    ∃ params : List Value,
      getFuncParams (sampleEnv (singleton "f0" httpFunc) id)
        (InvocationRequest.mk "inv-8" "f0" [oldHttpInput, newHttpInput]) (some httpFunc) =
          Res.ok params ∧
      getFuncParams (sampleEnv (singleton "f0" httpFunc) id)
        (InvocationRequest.mk "inv-8" "f0" [newHttpInput]) (some httpFunc) = Res.ok params ∧
      (∃ j : Nat, httpFunc.NamedInArgs[j]? = some ("req", HTTPRequestType) ∧
        params[j]? = some (Value.ofNative (Native.mk HTTPRequestType "GET /new"))) ∧
      ∀ (j : Nat) (t2 : GoType), httpFunc.NamedInArgs[j]? = some ("req", t2) →
        params[j]? = some (Value.ofNative (Native.mk HTTPRequestType "GET /new")) :=
  ⟨by decide,
    C18_last_duplicate_wins (sampleEnv (singleton "f0" httpFunc) id) httpFunc "inv-8" "f0"
      [] [] [] oldHttpInput newHttpInput (BindingInfo.mk BindingType.HTTPTriggerType)
      (Value.ofNative (Native.mk HTTPRequestType "GET /new")) HTTPRequestType rfl
      (by
        intro input hin
        simp only [List.nil_append, List.mem_cons, List.mem_singleton, List.not_mem_nil,
          or_false] at hin
        rcases hin with rfl | rfl
        · exact ⟨BindingInfo.mk BindingType.HTTPTriggerType,
            Value.ofNative (Native.mk HTTPRequestType "GET /old"), by decide, by decide⟩
        · exact ⟨BindingInfo.mk BindingType.HTTPTriggerType,
            Value.ofNative (Native.mk HTTPRequestType "GET /new"), by decide, by decide⟩)
      (by decide) (by decide) (by simp) (by decide) (by decide) (List.Perm.refl _)⟩

/-- C19: let the input `y` have its name in the binding map and not among the declared
parameters. When `y` converts, `getFuncParams` returns the same as for the request without
`y`; when `y` does not convert, `getFuncParams` returns no argument list. -/
theorem C19_unused_input_must_convert (env : Env) (f : Func) (id fid : String)
    (pre post : List ParameterBinding) (y : ParameterBinding) (b : BindingInfo)
    (hb : f.Bindings y.Name = some b)
    (hunused : ∀ p ∈ f.NamedInArgs, p.1 ≠ y.Name)
    (hperm : (env.rangeOrder f.NamedInArgs).Perm f.NamedInArgs) :
    ((∃ v : Value, getValueFromBinding env y b = Res.ok v) →
        getFuncParams env (InvocationRequest.mk id fid (pre ++ y :: post)) (some f) =
          getFuncParams env (InvocationRequest.mk id fid (pre ++ post)) (some f)) ∧
      ((∀ v : Value, getValueFromBinding env y b ≠ Res.ok v) →
        ∀ params : List Value,
          getFuncParams env (InvocationRequest.mk id fid (pre ++ y :: post)) (some f) ≠
            Res.ok params) := by
  refine ⟨?_, ?_⟩
  · rintro ⟨v, hv⟩
    apply getFuncParams_drop_input env f id fid pre post y ⟨b, v, hb, hv⟩
    intro e he hk
    exact absurd hk (hunused e (hperm.subset he))
  · intro hfail params h
    obtain ⟨args, hargs, _⟩ := getFuncParams_ok env _ f params h hperm
    simp only [] at hargs
    rw [collectArgs_bind] at hargs
    cases hpre : collectArgs env f pre [] with
    | ok a =>
      simp only [hpre, Res.bind] at hargs
      obtain ⟨b2, v, hb2, hv, _⟩ := collectArgs_step env f y post a args hargs
      rw [hb] at hb2
      cases hb2
      exact hfail v hv
    | err e => simp [hpre, Res.bind] at hargs
    | panic p => simp [hpre, Res.bind] at hargs

/-- Witness of C19: the binding `audit` names no parameter of `auditedFunc`. With a string
payload the input `audit` converts and the result is that of the request without it; with a
Json payload it does not convert and no argument list is returned. -/
theorem C19_unused_input_must_convert_witness :
    getFuncParams (sampleEnv (singleton "f0" auditedFunc) id)
        (InvocationRequest.mk "inv-9" "f0" [newHttpInput, auditInput]) (some auditedFunc) =
      getFuncParams (sampleEnv (singleton "f0" auditedFunc) id)
        (InvocationRequest.mk "inv-9" "f0" [newHttpInput]) (some auditedFunc) ∧
    ∀ params : List Value,
      getFuncParams (sampleEnv (singleton "f0" auditedFunc) id)
        (InvocationRequest.mk "inv-9" "f0" [newHttpInput, badAuditInput])
        (some auditedFunc) ≠ Res.ok params :=
  ⟨(C19_unused_input_must_convert (sampleEnv (singleton "f0" auditedFunc) id) auditedFunc
      "inv-9" "f0" [newHttpInput] [] auditInput (BindingInfo.mk BindingType.BlobBindingType)
      (by decide) (by decide) (List.Perm.refl _)).1
      ⟨Value.ofNative (Native.mk BlobType "log"), by decide⟩,
    (C19_unused_input_must_convert (sampleEnv (singleton "f0" auditedFunc) id) auditedFunc
      "inv-9" "f0" [newHttpInput] [] badAuditInput (BindingInfo.mk BindingType.BlobBindingType)
      (by decide) (by decide) (List.Perm.refl _)).2
      (by
        intro v h
        have hp : getValueFromBinding (sampleEnv (singleton "f0" auditedFunc) id) badAuditInput
            (BindingInfo.mk BindingType.BlobBindingType) = Res.panic Panic.reflectNewNil := by
          decide
        rw [hp] at h
        exact Res.noConfusion h)⟩

end Executor
